import Mathlib

/-!
Verification of the Readerware backup-conversion and merge scripts
(`Hsql2sqlite.py`, `rw_import.py`, `mergeBackups.py`).

The definitions below are a shallow embedding of the Python sources:
pure Python functions become Lean functions, Python `None` and raised
exceptions become `Option`, dynamically typed values become the
`RwValue` type, and the sqlite databases touched by the merge script
become explicit state records.  All arithmetic is `Nat`/`Int`/`Rat`;
32-bit overflow in the SHA-1 model is explicit with `% 2 ^ 32`.
-/

namespace RwScripts

/-! ### Models of the Python string primitives used by the scripts -/

/-- Whitespace trimming on character lists. -/
def pyStripL (l : List Char) : List Char :=
  ((l.dropWhile Char.isWhitespace).reverse.dropWhile Char.isWhitespace).reverse

/-- Model of Python `str.strip()` (whitespace trimming, as used on the
ASCII data handled by the scripts). -/
def pyStrip (s : String) : String := String.mk (pyStripL s.data)

/-- Model of Python `str.upper()` for the ASCII schema text. -/
def pyUpper (s : String) : String := String.mk (s.data.map Char.toUpper)

/-- Model of Python `value.replace("''", "'")`: scan left to right,
collapsing each doubled single quote. -/
def replaceDoubledQuote : List Char → List Char
  | [] => []
  | '\'' :: '\'' :: r => '\'' :: replaceDoubledQuote r
  | c :: r => c :: replaceDoubledQuote r

/-- Substring membership on character lists: `containsSub pat l` models
Python `pat in l`. -/
def containsSub (pat : List Char) : List Char → Bool
  | [] => pat.isEmpty
  | c :: t => pat.isPrefixOf (c :: t) || containsSub pat t

/-- Model of Python `pat in s` for strings. -/
def strContains (s pat : String) : Bool := containsSub pat.data s.data

/-- Model of Python `s.startswith(pat)`. -/
def lineStarts (s pat : String) : Bool := pat.data.isPrefixOf s.data

/-- Split a character list at every character satisfying `p`,
keeping empty pieces. -/
def splitCharsGo (p : Char → Bool) : List Char → List Char → List String
  | [], cur => [String.mk cur]
  | c :: rest, cur =>
    if p c then String.mk cur :: splitCharsGo p rest []
    else splitCharsGo p rest (cur ++ [c])

/-- Model of Python `str.split()` with no argument: split on runs of
whitespace, discarding empty pieces. -/
def pySplitWs (s : String) : List String :=
  (splitCharsGo Char.isWhitespace s.data []).filter (· ≠ "")

/-- Decimal value of a digit string (used by the `int()` model). -/
def digitsToNat (l : List Char) : Nat := l.foldl (fun a c => 10 * a + (c.toNat - '0'.toNat)) 0

/-- Model of Python `int(s)` on ordinary decimal literals: optional
surrounding whitespace, an optional sign, then decimal digits.  A string
outside this shape makes `int` raise `ValueError`, modelled as `none`. -/
def pyIntParse (s : String) : Option Int :=
  let t := (pyStrip s).data
  match t with
  | [] => none
  | c :: rest =>
    let sign : Int := if c = '-' then -1 else 1
    let ds := if c = '-' ∨ c = '+' then rest else t
    if ds ≠ [] ∧ ds.all Char.isDigit then some (sign * (digitsToNat ds : Int)) else none

/-- Split off a leading run of decimal digits. -/
def takeDigits (l : List Char) : List Char × List Char :=
  (l.takeWhile Char.isDigit, l.dropWhile Char.isDigit)

/-- Model of Python `float(s)` on ordinary decimal literals
(optional sign, digits with an optional fractional part, optional
exponent), with the value represented exactly as a rational.  Any other
string makes `float` raise `ValueError`, modelled as `none`. -/
def pyFloatParse (s : String) : Option Rat :=
  let t0 := (pyStrip s).data
  let sgn : Rat := match t0 with
    | '-' :: _ => -1
    | _ => 1
  let t1 : List Char := match t0 with
    | '-' :: r => r
    | '+' :: r => r
    | _ => t0
  let (ip, t2) := takeDigits t1
  let (fp, t3) := match t2 with
    | '.' :: r => takeDigits r
    | _ => ([], t2)
  if ip = [] ∧ fp = [] then none
  else
    let mant : Rat := (digitsToNat ip : Rat) + (digitsToNat fp : Rat) / (10 : Rat) ^ fp.length
    match t3 with
    | [] => some (sgn * mant)
    | 'e' :: r => do
      let esgn : Int := match r with
        | '-' :: _ => -1
        | _ => 1
      let r1 : List Char := match r with
        | '-' :: rr => rr
        | '+' :: rr => rr
        | _ => r
      let (ed, r2) := takeDigits r1
      if ed = [] ∨ r2 ≠ [] then none
      else some (sgn * mant * (10 : Rat) ^ (esgn * (digitsToNat ed : Int)))
    | 'E' :: r => do
      let esgn : Int := match r with
        | '-' :: _ => -1
        | _ => 1
      let r1 : List Char := match r with
        | '-' :: rr => rr
        | '+' :: rr => rr
        | _ => r
      let (ed, r2) := takeDigits r1
      if ed = [] ∨ r2 ≠ [] then none
      else some (sgn * mant * (10 : Rat) ^ (esgn * (digitsToNat ed : Int)))
    | _ => none

/-- Hex value of one character, as accepted by `binascii.unhexlify`. -/
def hexVal (c : Char) : Option Nat :=
  if '0' ≤ c ∧ c ≤ '9' then some (c.toNat - '0'.toNat)
  else if 'a' ≤ c ∧ c ≤ 'f' then some (c.toNat - 'a'.toNat + 10)
  else if 'A' ≤ c ∧ c ≤ 'F' then some (c.toNat - 'A'.toNat + 10)
  else none

/-- Pairwise hex decoding; `none` models the `binascii.Error` raised on
an odd-length or non-hex input. -/
def unhexlifyAux : List Char → Option (List Nat)
  | [] => some []
  | [_] => none
  | c1 :: c2 :: r => do
    let h ← hexVal c1
    let lo ← hexVal c2
    let rest ← unhexlifyAux r
    pure ((16 * h + lo) :: rest)

/-- Model of Python `binascii.unhexlify(s)` returning the byte list. -/
def pyUnhexlify (s : String) : Option (List Nat) := unhexlifyAux s.data

/-! ### The dynamically-typed values produced by the row transforms -/

/-- A Python value as it flows through the row engine: `None`, an int,
a float (represented exactly), a str, or a `bytes` blob. -/
inductive RwValue where
  | null : RwValue
  | int : Int → RwValue
  | real : Rat → RwValue
  | text : String → RwValue
  | blob : List Nat → RwValue
deriving DecidableEq

/-! ### The column transform functions (`Hsql2sqlite.py`, lines 151-212)

Each is a total Lean function: the Python originals catch every
`ValueError`/`TypeError`/`binascii.Error` internally, which the
embedding reflects by pattern-matching on the `Option` results of the
coercion models, so no transform can propagate a failure. -/

/-- `clean_string` — clean string values, unescape quotes. -/
def clean_string (value : String) : RwValue :=
  if value = "" ∨ value = "NULL" then .null
  else .text (pyStrip (String.mk (replaceDoubledQuote value.data)))

/-- `parse_int` — convert to integer, handling `-1` as NULL. -/
def parse_int (value : String) : RwValue :=
  if value = "" ∨ value = "NULL" then .null
  else match pyIntParse value with
    | none => .null
    | some v => if v = -1 then .null else .int v

/-- `parse_int_not_null` — convert to integer, keep `-1` values;
coercion failure (and the falsy/NULL inputs) give `0`. -/
def parse_int_not_null (value : String) : RwValue :=
  if value = "" ∨ value = "NULL" then .int 0
  else match pyIntParse value with
    | none => .int 0
    | some v => .int v

/-- `parse_float` — convert to float, failure gives NULL. -/
def parse_float (value : String) : RwValue :=
  if value = "" ∨ value = "NULL" then .null
  else match pyFloatParse value with
    | none => .null
    | some q => .real q

/-- `parse_date` — the source is already an ISO date string. -/
def parse_date (value : String) : RwValue :=
  if value = "" ∨ value = "NULL" then .null else .text (pyStrip value)

/-- `parse_boolean` — TRUE/FALSE to 1/0, anything else NULL. -/
def parse_boolean (value : String) : RwValue :=
  if value = "TRUE" then .int 1 else if value = "FALSE" then .int 0 else .null

/-- `parse_blob` — hex string to binary blob, failure gives NULL. -/
def parse_blob (value : String) : RwValue :=
  if value = "" ∨ value = "NULL" then .null
  else match pyUnhexlify value with
    | none => .null
    | some b => .blob b

/-- The transform-function table entries handed out by
`get_transform_function`, as first-class tags. -/
inductive TransformTag where
  | cleanString
  | parseInt
  | parseIntNotNull
  | parseFloat
  | parseDate
  | parseBoolean
  | parseBlob
  | cleanProductInfo
deriving DecidableEq

/-- `map_to_sqlite_type` (`Hsql2sqlite.py`, lines 108-127). -/
def map_to_sqlite_type (readerware_type : String) : String :=
  if strContains (pyUpper readerware_type) "VARCHAR" ∨
      strContains (pyUpper readerware_type) "CHAR" then "TEXT"
  else if strContains (pyUpper readerware_type) "BIGINT" then "INTEGER"
  else if strContains (pyUpper readerware_type) "INTEGER" then "INTEGER"
  else if strContains (pyUpper readerware_type) "DECIMAL" then "REAL"
  else if strContains (pyUpper readerware_type) "DATE" then "TEXT"
  else if strContains (pyUpper readerware_type) "BOOLEAN" then "INTEGER"
  else if strContains (pyUpper readerware_type) "VARBINARY" then "BLOB"
  else "TEXT"

/-- `get_transform_function` (`Hsql2sqlite.py`, lines 130-147): choose a
transform by substring classification of the column type; integer
columns get the nullable transform unless declared NOT NULL. -/
def get_transform_function (col_type : String) (is_not_null : Bool) : Option TransformTag :=
  if strContains (pyUpper col_type) "VARCHAR" ∨
      strContains (pyUpper col_type) "CHAR" then some .cleanString
  else if strContains (pyUpper col_type) "BIGINT" ∨
      strContains (pyUpper col_type) "INTEGER" then
    if is_not_null then some .parseIntNotNull else some .parseInt
  else if strContains (pyUpper col_type) "DECIMAL" then some .parseFloat
  else if strContains (pyUpper col_type) "DATE" then some .parseDate
  else if strContains (pyUpper col_type) "BOOLEAN" then some .parseBoolean
  else if strContains (pyUpper col_type) "VARBINARY" then some .parseBlob
  else none

/-! ### The statement classifier (`Hsql2sqlite.py`, `processRWbackup`, lines 631-659) -/

/-- A line for the main entity table:
`line.startswith("INSERT INTO READERWARE VALUES")`. -/
def isMainInsertLine (line : String) : Bool := lineStarts line "INSERT INTO READERWARE VALUES"

/-- Any insert line: `line.startswith("INSERT INTO")`. -/
def isInsertLine (line : String) : Bool := lineStarts line "INSERT INTO"

/-- A schema line: `line.startswith("CREATE CACHED")`. -/
def isCreateLine (line : String) : Bool := lineStarts line "CREATE CACHED"

/-- The three ordered buffers built by the classifier. -/
structure Buckets where
  createLines : List String
  readerwareLines : List String
  otherInsertLines : List String
deriving DecidableEq

/-- Classification of one dump line into the buffers, mirroring the
`for line in fin.readlines()` body of `processRWbackup`; unmatched
lines are dropped. -/
def classifyLine (b : Buckets) (line : String) : Buckets :=
  if isInsertLine line then
    if isMainInsertLine line then
      { b with readerwareLines := b.readerwareLines ++ [line] }
    else
      { b with otherInsertLines := b.otherInsertLines ++ [line] }
  else if isCreateLine line then
    { b with createLines := b.createLines ++ [line] }
  else b

/-- Classify a whole dump. -/
def splitBackupLines (lines : List String) : Buckets :=
  lines.foldl classifyLine ⟨[], [], []⟩

/-- `sortedInserts = io.StringIO(otherInsertLines.getvalue() + readerwareLines.getvalue())`:
the row-engine input is the other-entity bucket followed by the
main-entity bucket. -/
def sortedInsertLines (lines : List String) : List String :=
  (splitBackupLines lines).otherInsertLines ++ (splitBackupLines lines).readerwareLines

/-! ### Cover-image selection (`insert_readerware_into_sqlite`, lines 557-590)

The four cover slots hold `parse_blob` outputs, i.e. either `None` or a
`bytes` blob, modelled as `Option (List Nat)`. -/

/-- State of the min/max scan over the four cover-image slots: `mx`/`mn`
are the running byte sizes (initialised to `0` and `100000` as in the
source), and `mxImg`/`mnImg` model the `maxImage`/`minImage` variables
guarded by the `maxset`/`minset` flags (`none` = flag not set). -/
structure CoverScanState where
  mx : Nat
  mxImg : Option (List Nat)
  mn : Nat
  mnImg : Option (List Nat)
deriving DecidableEq

/-- `max = 0; maxset = False; min = 100000; minset = False`. -/
def coverInit : CoverScanState := ⟨0, none, 100000, none⟩

/-- One iteration of the `for i in range(len(images))` loop: a slot
participates only if it is truthy (`if images[i]:`) and its length
exceeds 4 (`if (l > 4):`); the strict max test runs before the strict
min test. -/
def coverStep (s : CoverScanState) (img : Option (List Nat)) : CoverScanState :=
  match img with
  | none => s
  | some b =>
    if b = [] then s
    else if 4 < b.length then
      let s1 := if s.mx < b.length then { s with mx := b.length, mxImg := some b } else s
      if b.length < s1.mn then { s1 with mn := b.length, mnImg := some b } else s1
    else s

/-- The loop body for a blob that passed both guards. -/
def candStep (s : CoverScanState) (b : List Nat) : CoverScanState :=
  let s1 := if s.mx < b.length then { s with mx := b.length, mxImg := some b } else s
  if b.length < s1.mn then { s1 with mn := b.length, mnImg := some b } else s1

/-- The whole scan over the image slots `readyRow[cover_index:cover_index+4]`. -/
def coverScan (images : List (Option (List Nat))) : CoverScanState :=
  images.foldl coverStep coverInit

/-- The cover-slot rewriting performed after the scan: slot 1 becomes
the recompressed smallest candidate (or NULL when `minset` is false),
slot 2 the recompressed largest candidate (or NULL), and slots 3 and 4
are always NULL.  `procSmall` and `procLarge` abstract the two
`process_image` recompression calls (the external image service). -/
def applyCoverSelection (procSmall procLarge : List Nat → Option (List Nat))
    (images : List (Option (List Nat))) : List (Option (List Nat)) :=
  [(coverScan images).mnImg.bind procSmall,
    (coverScan images).mxImg.bind procLarge, none, none]

/-- Spec-side view: the candidate blobs are the slots that are non-NULL,
truthy, and longer than the 4-byte plausibility floor, in slot order. -/
def coverCandidates (images : List (Option (List Nat))) : List (List Nat) :=
  (images.filterMap id).filter (fun b => 4 < b.length)

/-- Spec-side selection of the canonical large cover: the first
candidate of maximal length (ties broken by slot order). -/
def largestCandidate (l : List (List Nat)) : Option (List Nat) :=
  l.find? (fun b => l.all (fun c => c.length ≤ b.length))

/-- Spec-side description of the small cover the code actually selects:
the first candidate of minimal length, provided that minimal length is
below 100000 (the initial value of the running minimum); otherwise no
small cover is selected at all. -/
def smallestCandidateUnderCap (l : List (List Nat)) : Option (List Nat) :=
  l.find? (fun b => decide (b.length < 100000) && l.all (fun c => b.length ≤ c.length))

/-- Largest candidate length seen by the scan (0 when there is none). -/
def maxCandLen (l : List (List Nat)) : Nat :=
  l.foldl (fun a b => Nat.max a b.length) 0

/-- Smallest candidate length seen by the scan, capped at the 100000
initialisation value. -/
def minCandLen (l : List (List Nat)) : Nat :=
  l.foldl (fun a b => Nat.min a b.length) 100000

/-! ### Schema transformation (`parse_create_table`, `Hsql2sqlite.py`, lines 351-492) -/

/-- Model of Python `text.replace('\\u000a', '\n')` in
`clean_product_info`: the six-character escape sequence becomes a real
newline. -/
def replaceEscapedNewline : List Char → List Char
  | '\\' :: 'u' :: '0' :: '0' :: '0' :: 'a' :: r => '\n' :: replaceEscapedNewline r
  | c :: r => c :: replaceEscapedNewline r
  | [] => []

/-- `clean_product_info` (`Hsql2sqlite.py`, lines 303-315): unescape
quotes and newlines, drop a leading "Book Description" banner line
(17 characters), and strip. -/
def clean_product_info (text : String) : RwValue :=
  if text = "" ∨ text = "NULL" then .null
  else
    let t1 := replaceEscapedNewline (replaceDoubledQuote text.data)
    let t2 := if "Book Description\n".data.isPrefixOf t1 then t1.drop 17 else t1
    .text (pyStrip (String.mk t2))

/-- Interpretation of a transform tag as the transform it names. -/
def applyTransform : TransformTag → String → RwValue
  | .cleanString => clean_string
  | .parseInt => parse_int
  | .parseIntNotNull => parse_int_not_null
  | .parseFloat => parse_float
  | .parseDate => parse_date
  | .parseBoolean => parse_boolean
  | .parseBlob => parse_blob
  | .cleanProductInfo => clean_product_info

/-- Extract the substring between the first opening parenthesis and the
last closing parenthesis, as `re.search(r'CREATE.*?TABLE\s+(\w+)\s*\((.*)\)', ..., DOTALL)`
captures it on the statements produced by the balanced-paren extractor;
`none` models a failed match (a raised `ValueError`). -/
def extractColumnsText (createSql : String) : Option String :=
  match createSql.data.dropWhile (· ≠ '(') with
  | [] => none
  | _ :: rest =>
    match rest.reverse.dropWhile (· ≠ ')') with
    | [] => none
    | _ :: revRest => some (String.mk revRest.reverse)

/-- The paren-depth-aware splitter over the column-list text: split on
commas at depth 0 only, stripping each piece; a trailing nonempty piece
is pushed at the end. -/
def splitTopCommasGo : List Char → Int → List Char → List String → List String
  | [], _, cur, acc => if cur.isEmpty then acc else acc ++ [pyStrip (String.mk cur)]
  | c :: rest, depth, cur, acc =>
    if c = '(' then splitTopCommasGo rest (depth + 1) (cur ++ [c]) acc
    else if c = ')' then splitTopCommasGo rest (depth - 1) (cur ++ [c]) acc
    else if c = ',' ∧ depth = 0 then
      splitTopCommasGo rest depth [] (acc ++ [pyStrip (String.mk cur)])
    else splitTopCommasGo rest depth (cur ++ [c]) acc

/-- Split a column list on top-level commas (`Hsql2sqlite.py`, lines 374-392). -/
def splitTopCommas (s : String) : List String := splitTopCommasGo s.data 0 [] []

/-- The table-level constraint keywords skipped by the column loop. -/
def constraintKeywords : List String := ["CONSTRAINT", "PRIMARY", "UNIQUE", "FOREIGN", "CHECK"]

/-- Column names joined with a comma: the explicit insert column list
`','.join(schemas[table][COLUMNS_LIST])` used at line 597. -/
def joinWith (sep : String) : List String → String
  | [] => ""
  | [x] => x
  | x :: y :: xs => x ++ sep ++ joinWith sep (y :: xs)

/-- Assignment in the `transforms` index-keyed dictionary. -/
def assocSet (l : List (Nat × TransformTag)) (k : Nat) (v : TransformTag) :
    List (Nat × TransformTag) :=
  if l.any (fun p => p.1 = k) then l.map (fun p => if p.1 = k then (k, v) else p)
  else l ++ [(k, v)]

/-- The per-column loop of `parse_create_table` (lines 402-444): skip
empty and table-level-constraint definitions, otherwise derive the
target column DDL and register a transform under the column's
enumeration index.  The first component accumulates `all_columns`, the
second `transforms`, the third `sqlite_columns`. -/
def buildColumnsAux : List (Nat × String) → List String → List (Nat × TransformTag) →
    List String → List String × List (Nat × TransformTag) × List String
  | [], cols, tr, sqls => (cols, tr, sqls)
  | (idx, col_def) :: rest, cols, tr, sqls =>
    match pySplitWs col_def with
    | [] => buildColumnsAux rest cols tr sqls
    | name :: tRest =>
      if constraintKeywords.contains (pyUpper name) then buildColumnsAux rest cols tr sqls
      else
        match tRest with
        | [] => buildColumnsAux rest cols tr sqls
        | ctype :: _ =>
          let col_type := pyUpper ctype
          let is_not_null := strContains (pyUpper col_def) "NOT NULL"
          let is_identity := strContains (pyUpper col_def) "IDENTITY"
          let sqlite_type := map_to_sqlite_type col_type
          let sqlite_col :=
            if is_identity then name ++ " INTEGER PRIMARY KEY AUTOINCREMENT"
            else if strContains (pyUpper col_def) "PRIMARY KEY" then
              name ++ " " ++ sqlite_type ++ " PRIMARY KEY"
            else if is_not_null then name ++ " " ++ sqlite_type ++ " NOT NULL"
            else name ++ " " ++ sqlite_type
          let trans2 := match get_transform_function col_type is_not_null with
            | some f => tr ++ [(idx, f)]
            | none => tr
          buildColumnsAux rest (cols ++ [name]) trans2 (sqls ++ [sqlite_col])

/-- The ten declarative foreign-key clauses appended for the main table. -/
def readerwareForeignKeys : List String :=
  ["FOREIGN KEY('AUTHOR')  REFERENCES CONTRIBUTOR(ROWKEY)",
   "FOREIGN KEY('AUTHOR2') REFERENCES CONTRIBUTOR(ROWKEY)",
   "FOREIGN KEY('AUTHOR3') REFERENCES CONTRIBUTOR(ROWKEY)",
   "FOREIGN KEY('FORMAT') REFERENCES FORMAT_LST(ROWKEY)",
   "FOREIGN KEY('PUBLISHER') REFERENCES PUBLISHER_LIST(ROWKEY)",
   "FOREIGN KEY('PUB_PLACE') REFERENCES PUBLICATION_PLACE_LIST(ROWKEY)",
   "FOREIGN KEY('CONTENT_LANGUAGE') REFERENCES LANGUAGE_LIST(ROWKEY)",
   "FOREIGN KEY('CATEGORY1') REFERENCES CATEGORY_LIST(ROWKEY)",
   "FOREIGN KEY('CATEGORY2') REFERENCES CATEGORY_LIST(ROWKEY)",
   "FOREIGN KEY('CATEGORY3') REFERENCES CATEGORY_LIST(ROWKEY)"]

/-- First whitespace-separated word of a column definition
(`col_def.split()[0]`). -/
def firstWord (s : String) : String := (pySplitWs s).headD ""

/-- The `if table == 'READERWARE'` special block (lines 454-490).  The
Python block runs under `try`, so a failed `list.index` call aborts the
remainder of the block with earlier mutations kept: a missing
`PRODUCT_INFO TEXT` column leaves everything unchanged, and a missing
`IMAGE1_DATA BLOB` column keeps only the description-transform
override.  `if descriptionIndex:` is a truthiness test, so an index of
0 does not install the override.  Returns
(all_columns, transforms, sqlite_columns, coversIndex). -/
def readerwareSpecial (cols : List String) (trans : List (Nat × TransformTag))
    (sqls : List String) :
    List String × List (Nat × TransformTag) × List String × Option Nat :=
  match sqls.indexOf? "PRODUCT_INFO TEXT" with
  | none => (cols, trans, sqls, none)
  | some di =>
    let trans1 := if di ≠ 0 then assocSet trans di .cleanProductInfo else trans
    match sqls.indexOf? "IMAGE1_DATA BLOB" with
    | none => (cols, trans1, sqls, none)
    | some ci =>
      let n := trans1.length
      let trans2 := trans1.filter (fun p => ¬(69 ≤ p.1 ∧ p.1 ≤ n))
      let sqls2 := sqls.take 69 ++ ["CONVERTED TEXT", "HASH TEXT", "PROVENANCE TEXT"]
      let cols2 := sqls2.map firstWord
      let trans3 := assocSet (assocSet (assocSet trans2 69 .cleanString) 70 .cleanString)
          71 .cleanString
      let sqls3 := sqls2 ++ readerwareForeignKeys
      (cols2, trans3, sqls3, some ci)

/-- `parse_create_table` (`Hsql2sqlite.py`, lines 351-492): parse one
CREATE TABLE statement into target DDL, the index-keyed transform
table, the column-name list used for inserts, and the cover-image
column index.  `none` models the `ValueError` raised when the statement
cannot be matched. -/
def parse_create_table (createSql : String) (table : String) :
    Option (String × List (Nat × TransformTag) × List String × Option Nat) :=
  match extractColumnsText createSql with
  | none => none
  | some columnsText =>
    let defs := splitTopCommas columnsText
    let (cols0, trans0, sqls0) := buildColumnsAux defs.enum [] [] []
    let (cols1, sqls1) :=
      if table = "CONTRIBUTOR" then (cols0.take 3, sqls0.take 3) else (cols0, sqls0)
    let (cols2, trans2, sqls2, coversIndex) :=
      if table = "READERWARE" then readerwareSpecial cols1 trans0 sqls1
      else (cols1, trans0, sqls1, none)
    some ("CREATE TABLE " ++ table ++ " (" ++ joinWith ", " sqls2 ++ ")",
      trans2, cols2, coversIndex)

/-- A concrete CONTRIBUTOR CREATE statement in the source dialect, with
an IDENTITY surrogate-key column, as produced by the schema extractor. -/
def contributorCreateStmt : String :=
  "CREATE CACHED TABLE CONTRIBUTOR(ROWKEY BIGINT GENERATED BY DEFAULT AS IDENTITY(START WITH 0) NOT NULL PRIMARY KEY,NAME VARCHAR(256),SORT_NAME VARCHAR(256),DATE_ADDED DATE)"

/-! ### The value tokenizer

`Hsql2sqlite.py` line 514 and `rw_import.py` line 113 both parse a
VALUES list with Python's `csv.reader` configured with delimiter `,`,
quote character `'` and `doublequote=True` (non-strict).  `csvGo` is a
faithful model of that reader's state machine on a single-line record:
in an unquoted field the quote character is ordinary data; inside a
quoted field the delimiter is data; a doubled quote inside a quoted
field is a literal quote; after the closing quote a delimiter ends the
field and any other character re-enters unquoted-field mode. -/

/-- The reader states (START_FIELD, IN_FIELD, IN_QUOTED_FIELD,
QUOTE_IN_QUOTED_FIELD of CPython's `_csv`). -/
inductive CsvState where
  | startField
  | inField
  | inQuoted
  | quoteInQuoted
deriving DecidableEq

/-- One-record csv scan: `cur` is the field being built, `acc` the
fields already emitted; end of input flushes the current field. -/
def csvGo : CsvState → List Char → List Char → List (List Char) → List (List Char)
  | .startField, [], cur, acc => acc ++ [cur]
  | .inField, [], cur, acc => acc ++ [cur]
  | .inQuoted, [], cur, acc => acc ++ [cur]
  | .quoteInQuoted, [], cur, acc => acc ++ [cur]
  | .startField, c :: rest, cur, acc =>
    if c = '\'' then csvGo .inQuoted rest cur acc
    else if c = ',' then csvGo .startField rest [] (acc ++ [cur])
    else csvGo .inField rest (cur ++ [c]) acc
  | .inField, c :: rest, cur, acc =>
    if c = ',' then csvGo .startField rest [] (acc ++ [cur])
    else csvGo .inField rest (cur ++ [c]) acc
  | .inQuoted, c :: rest, cur, acc =>
    if c = '\'' then csvGo .quoteInQuoted rest cur acc
    else csvGo .inQuoted rest (cur ++ [c]) acc
  | .quoteInQuoted, c :: rest, cur, acc =>
    if c = '\'' then csvGo .inQuoted rest (cur ++ [c]) acc
    else if c = ',' then csvGo .startField rest [] (acc ++ [cur])
    else csvGo .inField rest (cur ++ [c]) acc

/-- Parse one VALUES record; an empty line yields no row at all, as
`csv.reader` does. -/
def csvParse (cs : List Char) : List String :=
  if cs = [] then [] else (csvGo .startField cs [] []).map String.mk

/-- A source column value as serialised in the dump: either a quoted
string literal, or an unquoted literal (`NULL`, `TRUE`, `FALSE`, bare
numbers, and hex binary literals of the form X'hex'). -/
inductive SqlToken where
  | str : String → SqlToken
  | raw : String → SqlToken
deriving DecidableEq

/-- Double every single quote, as the dump format escapes them. -/
def encodeQuotes : List Char → List Char
  | [] => []
  | c :: r => if c = '\'' then '\'' :: '\'' :: encodeQuotes r else c :: encodeQuotes r

/-- Serialise one column value as it appears in a VALUES list. -/
def renderToken : SqlToken → List Char
  | .str s => '\'' :: (encodeQuotes s.data ++ ['\''])
  | .raw s => s.data

/-- Serialise a whole VALUES list, comma separated. -/
def renderValueList : List SqlToken → List Char
  | [] => []
  | [v] => renderToken v
  | v :: w :: rest => renderToken v ++ ',' :: renderValueList (w :: rest)

/-- The raw token the csv reader is expected to yield for one value:
a quoted string loses its quotes and its quote-doubling, an unquoted
literal (including a hex literal) passes through unchanged. -/
def tokenValue : SqlToken → String
  | .str s => s
  | .raw s => s

/-- Well-formedness of an unquoted literal: nonempty, does not start
with the quote character, and contains no comma.  `NULL`, `TRUE`,
`FALSE`, numeric literals and X'hex' literals (hex digits only) all
satisfy this. -/
def tokenOk : SqlToken → Prop
  | .str _ => True
  | .raw s => s ≠ "" ∧ s.data.head? ≠ some '\'' ∧ ',' ∉ s.data

instance : DecidablePred tokenOk := by
  intro v
  cases v with
  | str s => exact isTrue trivial
  | raw s => exact inferInstanceAs (Decidable (_ ∧ _ ∧ _))

/-- Model of Python `s.endswith(pat)`. -/
def strEndsWith (s pat : String) : Bool := pat.data.reverse.isPrefixOf s.data.reverse

/-- `parse_value` (`rw_import.py`, lines 89-98): strip, map falsy/NULL
to None, TRUE/FALSE to 1/0, decode X'hex' binary literals, unquote and
unescape string literals, then try int (when the minus-stripped text is
all digits) and float, falling back to the raw text when the numeric
coercion raises.  The result is `none` only for the uncaught
`binascii.Error` of a malformed hex literal. -/
def parse_value (v0 : String) : Option RwValue :=
  let v := pyStrip v0
  if v = "" ∨ v = "NULL" then some .null
  else if v = "TRUE" then some (.int 1)
  else if v = "FALSE" then some (.int 0)
  else if lineStarts v "X'" ∧ strEndsWith v "'" then
    match pyUnhexlify (String.mk ((v.data.drop 2).dropLast)) with
    | some b => some (.blob b)
    | none => none
  else if lineStarts v "'" ∧ strEndsWith v "'" then
    some (.text (String.mk (replaceDoubledQuote ((v.data.drop 1).dropLast))))
  else if (v.data.dropWhile (· = '-')) ≠ [] ∧ (v.data.dropWhile (· = '-')).all Char.isDigit then
    match pyIntParse v with
    | some n => some (.int n)
    | none => some (.text v)
  else
    match pyFloatParse v with
    | some q => some (.real q)
    | none => some (.text v)

/-! ### SHA-1 and the ContentHash (`insert_readerware_into_sqlite`, lines 541-556)

The code computes `hashlib.sha1("||".join(hash_parts).encode()).hexdigest()`.
`sha1Digest` below is the standard SHA-1 compression pipeline on byte
lists, with 32-bit words represented as `Nat` reduced mod `2 ^ 32`. -/

/-- Truncate to a 32-bit word. -/
def w32 (x : Nat) : Nat := x % 4294967296

/-- 32-bit left rotation of a word. -/
def rotl32 (s x : Nat) : Nat := w32 ((x <<< s) + (x >>> (32 - s)))

/-- The SHA-1 round function, by round index. -/
def sha1f (i b c d : Nat) : Nat :=
  if i < 20 then (b &&& c) ||| ((b ^^^ 4294967295) &&& d)
  else if i < 40 then b ^^^ c ^^^ d
  else if i < 60 then (b &&& c) ||| (b &&& d) ||| (c &&& d)
  else b ^^^ c ^^^ d

/-- The SHA-1 round constants, by round index. -/
def sha1k (i : Nat) : Nat :=
  if i < 20 then 1518500249
  else if i < 40 then 1859775393
  else if i < 60 then 2400959708
  else 3395469782

/-- Big-endian 32-bit word from four bytes. -/
def bytesToWord (a b c d : Nat) : Nat := ((a * 256 + b) * 256 + c) * 256 + d

/-- Group a 64-byte chunk into sixteen big-endian words. -/
def chunkWords : List Nat → List Nat
  | a :: b :: c :: d :: rest => bytesToWord a b c d :: chunkWords rest
  | _ => []

/-- Extend the message schedule by one word. -/
def extendStep (ws : List Nat) : List Nat :=
  let i := ws.length
  ws ++ [rotl32 1 ((ws.getD (i - 3) 0) ^^^ (ws.getD (i - 8) 0) ^^^
    (ws.getD (i - 14) 0) ^^^ (ws.getD (i - 16) 0))]

/-- Iterate the schedule extension. -/
def scheduleAux : Nat → List Nat → List Nat
  | 0, ws => ws
  | n + 1, ws => scheduleAux n (extendStep ws)

/-- The 80-word message schedule of one chunk. -/
def schedule (ws : List Nat) : List Nat := scheduleAux 64 ws

/-- The 80 SHA-1 rounds over one chunk's schedule. -/
def sha1Rounds (ws : List Nat) (h : Nat × Nat × Nat × Nat × Nat) :
    Nat × Nat × Nat × Nat × Nat :=
  (List.range 80).foldl (fun r i =>
    match r with
    | (a, b, c, d, e) =>
      (w32 (rotl32 5 a + sha1f i b c d + e + sha1k i + ws.getD i 0), a, rotl32 30 b, c, d)) h

/-- Compress one 64-byte chunk into the running state. -/
def processChunk (hs : Nat × Nat × Nat × Nat × Nat) (chunk : List Nat) :
    Nat × Nat × Nat × Nat × Nat :=
  match hs, sha1Rounds (schedule (chunkWords chunk)) hs with
  | (h0, h1, h2, h3, h4), (a, b, c, d, e) =>
    (w32 (h0 + a), w32 (h1 + b), w32 (h2 + c), w32 (h3 + d), w32 (h4 + e))

/-- SHA-1 padding: a 0x80 byte, zeros to 56 mod 64, and the bit length
as a 64-bit big-endian number. -/
def sha1Pad (msg : List Nat) : List Nat :=
  let L := msg.length
  let zeros := (64 - ((L + 9) % 64)) % 64
  let bitLen := 8 * L
  msg ++ [128] ++ List.replicate zeros 0 ++
    [bitLen / 2 ^ 56 % 256, bitLen / 2 ^ 48 % 256, bitLen / 2 ^ 40 % 256,
      bitLen / 2 ^ 32 % 256, bitLen / 2 ^ 24 % 256, bitLen / 2 ^ 16 % 256,
      bitLen / 2 ^ 8 % 256, bitLen % 256]

/-- Split a byte list into 64-byte chunks. -/
def toChunks : List Nat → List (List Nat)
  | [] => []
  | a :: l => (a :: l).take 64 :: toChunks ((a :: l).drop 64)
termination_by l => l.length
decreasing_by simp; omega

/-- The 160-bit SHA-1 digest of a byte list, as a natural number
(big-endian concatenation of the five 32-bit registers; the outer `w32`
are no-ops on the register invariant and make the `2 ^ 160` bound hold
by construction). -/
def sha1Digest (msg : List Nat) : Nat :=
  match (toChunks (sha1Pad msg)).foldl processChunk
      (1732584193, 4023233417, 2562383102, 271733878, 3285377520) with
  | (h0, h1, h2, h3, h4) =>
    (w32 h0) * 2 ^ 128 + (w32 h1) * 2 ^ 96 + (w32 h2) * 2 ^ 64 + (w32 h3) * 2 ^ 32 + w32 h4

/-- Lower-case hex character of a nibble. -/
def nibbleChar (n : Nat) : Char :=
  if n < 10 then Char.ofNat ('0'.toNat + n) else Char.ofNat ('a'.toNat + n - 10)

/-- The `k` most significant nibbles of `x`, big-endian. -/
def natToHexAux : Nat → Nat → List Char
  | 0, _ => []
  | k + 1, x => nibbleChar (x / 16 ^ k % 16) :: natToHexAux k x

/-- `hashlib.sha1(bytes).hexdigest()`: forty lower-case hex characters. -/
def sha1Hexdigest (msg : List Nat) : String := String.mk (natToHexAux 40 (sha1Digest msg))

/-- UTF-8 encoding of one character (Python `str.encode()`). -/
def utf8Encode (c : Char) : List Nat :=
  let n := c.toNat
  if n < 128 then [n]
  else if n < 2048 then [192 + n / 64, 128 + n % 64]
  else if n < 65536 then [224 + n / 4096, 128 + n / 64 % 64, 128 + n % 64]
  else [240 + n / 262144, 128 + n / 4096 % 64, 128 + n / 64 % 64, 128 + n % 64]

/-- UTF-8 bytes of a string (Python `str.encode()`). -/
def strUtf8 (s : String) : List Nat := s.data.foldr (fun c acc => utf8Encode c ++ acc) []

/-- Python `str(value)` for the values the row engine produces, to the
extent the hash computation exercises it (`None` is handled separately
by the `"" if ... is None` guard; the hash fields hold text or int). -/
def natDecimalGo : Nat → List Char → List Char
  | 0, acc => acc
  | n + 1, acc =>
    natDecimalGo ((n + 1) / 10) (Char.ofNat ('0'.toNat + (n + 1) % 10) :: acc)
decreasing_by exact Nat.div_lt_self (Nat.succ_pos n) (by omega)

/-- Decimal rendering of a natural number. -/
def natDecimal (n : Nat) : String := if n = 0 then "0" else String.mk (natDecimalGo n [])

/-- `str(value)` on the row-engine value types.  The hash fields only
ever hold `None`, text, or int; rationals are rendered as a fraction,
standing in for Python float formatting, which the hash never sees. -/
def pyStr : RwValue → String
  | .null => "None"
  | .int n => if n < 0 then "-" ++ natDecimal n.natAbs else natDecimal n.natAbs
  | .real q => natDecimal q.num.natAbs ++ "/" ++ natDecimal q.den
  | .text s => s
  | .blob b => "<bytes:" ++ natDecimal b.length ++ ">"

/-- One entry of `hash_parts`: `"" if value is None else str(value)`. -/
def hashPart (v : RwValue) : String :=
  match v with
  | .null => ""
  | v => pyStr v

/-- The ContentHash of the three designated hash-field values:
`hashlib.sha1("||".join(hash_parts).encode()).hexdigest()` over
`FIELDS_FOR_HASH = ("TITLE", "ISBN", "PAGES")`. -/
def contentHash (title isbn pages : RwValue) : String :=
  sha1Hexdigest (strUtf8 (joinWith "||" [hashPart title, hashPart isbn, hashPart pages]))

/-- The row-level hash computation: project the TITLE/ISBN/PAGES fields
through `HASH_FIELDS.index(f)` over the column-name list and hash them;
`none` models the ValueError/IndexError raised when a field or row
entry is missing (caught by the per-line handler). -/
def rowContentHash (cols : List String) (row : List RwValue) : Option String := do
  let i ← cols.indexOf? "TITLE"
  let j ← cols.indexOf? "ISBN"
  let k ← cols.indexOf? "PAGES"
  let t ← row.get? i
  let s ← row.get? j
  let p ← row.get? k
  pure (contentHash t s p)

/-! ### The merge engine (`mergeBackups.py`, `merge_books`, lines 9-188)

The sqlite target database becomes an explicit state record; every
`tc.execute` that touches the database is recorded in a `DbOp` log so
that "queried"/"modified" become observable.  Exceptions are out of
scope of the embedding (sqlite integrity errors have no modelled
constraint to fire on). -/

/-- The six lookup tables re-identified by natural key during merge. -/
inductive LookupTable where
  | contributor
  | publisherList
  | pubPlaceList
  | categoryList
  | formatList
  | languageList
deriving DecidableEq

/-- The ten foreign-key fields of a BOOKS row that get remapped. -/
inductive MergeFK where
  | author
  | author2
  | author3
  | publisher
  | pubPlace
  | category1
  | category2
  | category3
  | format
  | contentLanguage
deriving DecidableEq

/-- The field → lookup-table association of `merge_books` lines 139-150. -/
def fkTable : MergeFK → LookupTable
  | .author => .contributor
  | .author2 => .contributor
  | .author3 => .contributor
  | .publisher => .publisherList
  | .pubPlace => .pubPlaceList
  | .category1 => .categoryList
  | .category2 => .categoryList
  | .category3 => .categoryList
  | .format => .formatList
  | .contentLanguage => .languageList

/-- The order in which the ten fields are remapped. -/
def fkFieldOrder : List MergeFK :=
  [.author, .author2, .author3, .publisher, .pubPlace,
   .category1, .category2, .category3, .format, .contentLanguage]

/-- A row of a target lookup table (ROWKEY, NAME/LISTITEM, merge_source). -/
structure LookupRow where
  rowkey : Nat
  name : String
  mergeSource : Option String
deriving DecidableEq

/-- A BOOKS row, with the fields the merge reads explicitly and the
ten foreign keys as a function of the field. -/
structure BookRow where
  rowkey : Option Nat
  fk : MergeFK → Option Nat
  hash : String
  provenance : Option String

/-- The target (master) database state. -/
structure TargetState where
  lookups : LookupTable → List LookupRow
  books : List BookRow

/-- One already-converted source database: its lookup tables as
(ROWKEY, NAME/LISTITEM) rows and its BOOKS rows. -/
structure SourceDB where
  lookups : LookupTable → List (Nat × String)
  books : List BookRow

/-- The in-memory `lookup_maps` cache: natural key → target ROWKEY. -/
def MergeCache : Type := LookupTable → List (String × Nat)

/-- The database operations `merge_books` can issue, for the log. -/
inductive DbOp where
  | selectLookup : LookupTable → String → DbOp
  | insertLookup : LookupTable → String → DbOp
  | selectBookByHash : String → DbOp
  | insertBook : DbOp
deriving DecidableEq

/-- Whether an op is a lookup-table insert. -/
def isInsertLookup : DbOp → Bool
  | .insertLookup _ _ => true
  | _ => false

/-- Whether an op is a BOOKS insert. -/
def isInsertBook : DbOp → Bool
  | .insertBook => true
  | _ => false

/-- Model of sqlite's `lastrowid` after an autoincrement insert: one
more than the largest existing key. -/
def newRowkey (rows : List LookupRow) : Nat :=
  rows.foldr (fun r m => Nat.max r.rowkey m) 0 + 1

/-- Add an entry to the in-memory cache. -/
def cacheAdd (c : MergeCache) (t : LookupTable) (k : String) (v : Nat) : MergeCache :=
  fun t2 => if t2 = t then c t ++ [(k, v)] else c t2

/-- `get_or_create_lookup` (lines 54-83): normalise the key
(`(listitem or "").strip()`), return None for an empty key without
touching the database; otherwise consult the cache, then the target by
natural key, then insert a new row (provenance-tagged) and cache it.
The result is (key, cache, target, issued SQL ops). -/
def get_or_create_lookup (prov : Option String) (t : LookupTable) (listitem0 : Option String)
    (cache : MergeCache) (tgt : TargetState) :
    Option Nat × MergeCache × TargetState × List DbOp :=
  let listitem := pyStrip (listitem0.getD "")
  if listitem = "" then (none, cache, tgt, [])
  else
    match (cache t).find? (fun p => p.1 = listitem) with
    | some p => (some p.2, cache, tgt, [])
    | none =>
      match (tgt.lookups t).find? (fun r => r.name = listitem) with
      | some r => (some r.rowkey, cacheAdd cache t listitem r.rowkey, tgt,
          [.selectLookup t listitem])
      | none =>
        let rk := newRowkey (tgt.lookups t)
        (some rk, cacheAdd cache t listitem rk,
          { tgt with lookups := fun t2 =>
              if t2 = t then tgt.lookups t ++ [⟨rk, listitem, prov⟩] else tgt.lookups t2 },
          [.selectLookup t listitem, .insertLookup t listitem])

/-- The per-source lookup map construction (lines 110-121): the rows of
one source lookup table become a dict rowkey → stripped name, skipping
names that strip to empty; a later row with the same rowkey overwrites
the earlier entry. -/
def srcLookupDict (rows : List (Nat × String)) : List (Nat × String) :=
  rows.foldl (fun m p =>
    if pyStrip p.2 = "" then m
    else if m.any (fun q => q.1 = p.1) then
      m.map (fun q => if q.1 = p.1 then (p.1, pyStrip p.2) else q)
    else m ++ [(p.1, pyStrip p.2)]) []

/-- `src_lookups[table].get(old_key, "")`. -/
def srcLookupGet (db : SourceDB) (t : LookupTable) (k : Nat) : Option String :=
  ((srcLookupDict (db.lookups t)).find? (fun p => p.1 = k)).map (fun p => p.2)

/-- Remap one foreign-key field of one row (lines 139-159): a None key
is left alone; otherwise the source key is resolved to its stripped
natural name and then to a target key via `get_or_create_lookup`, and
the field is overwritten with the resolved key (None when the name is
empty). -/
def remapField (srcL : LookupTable → Nat → Option String) (row : BookRow) (f : MergeFK)
    (cache : MergeCache) (tgt : TargetState) :
    BookRow × MergeCache × TargetState × List DbOp :=
  match row.fk f with
  | none => (row, cache, tgt, [])
  | some oldKey =>
    let oldName := pyStrip ((srcL (fkTable f) oldKey).getD "")
    match get_or_create_lookup row.provenance (fkTable f) (some oldName) cache tgt with
    | (newKey, cache2, tgt2, ops) =>
      ({ row with fk := fun g => if g = f then newKey else row.fk g }, cache2, tgt2, ops)

/-- The 3a loop: remap a list of foreign-key fields in order,
accumulating the row, cache, target and op log. -/
def remapAll (srcL : LookupTable → Nat → Option String) (fs : List MergeFK)
    (acc : BookRow × MergeCache × TargetState × List DbOp) :
    BookRow × MergeCache × TargetState × List DbOp :=
  fs.foldl (fun acc f =>
    match acc with
    | (r, c, s, o) =>
      match remapField srcL r f c s with
      | (r2, c2, s2, o2) => (r2, c2, s2, o ++ o2)) acc

/-- Process one source BOOKS row (lines 135-180): remap the ten
foreign-key fields in order, then query the target for the row's
ContentHash; if present, skip (no insert, no update); otherwise insert
the remapped row with a None surrogate key. -/
def mergeBook (srcL : LookupTable → Nat → Option String) (row0 : BookRow)
    (cache : MergeCache) (tgt : TargetState) : MergeCache × TargetState × List DbOp :=
  match remapAll srcL fkFieldOrder (row0, cache, tgt, ([] : List DbOp)) with
  | (row, cache1, tgt1, ops) =>
    if tgt1.books.any (fun b => b.hash = row.hash) then
      (cache1, tgt1, ops ++ [.selectBookByHash row.hash])
    else
      (cache1, { tgt1 with books := tgt1.books ++ [{ row with rowkey := none }] },
        ops ++ [.selectBookByHash row.hash, .insertBook])

/-- Fold `mergeBook` over a list of source rows. -/
def mergeAll (srcL : LookupTable → Nat → Option String) (rows : List BookRow)
    (acc : MergeCache × TargetState × List DbOp) : MergeCache × TargetState × List DbOp :=
  rows.foldl (fun acc row =>
    match acc with
    | (c, s, o) =>
      match mergeBook srcL row c s with
      | (c2, s2, o2) => (c2, s2, o ++ o2)) acc

/-- Merge one source database into the target (the per-source body of
`merge_books`, with a fresh in-memory cache). -/
def mergeSource (db : SourceDB) (tgt : TargetState) : TargetState × List DbOp :=
  match mergeAll (srcLookupGet db) db.books
      ((fun _ => [] : MergeCache), tgt, ([] : List DbOp)) with
  | (_, t, ops) => (t, ops)

/-! ### Control-flow skeleton of the per-line error handling in
`insert_readerware_into_sqlite` (Hsql2sqlite.py lines 504-617).

Each READERWARE insert line runs inside one outer `try` whose `except`
increments `error_count` and moves on.  Inside it sit three nested
`try` blocks whose excepts only print and swallow: the SHA-1
computation (lines 550-554), the cover-image scan/resize (lines
560-592), and the shape check that raises RuntimeError on a length
mismatch (lines 594-606).  The `readyRow.extend(... content_hash ...)`
at line 556 and the `cursor.execute` at line 608 sit OUTSIDE those
inner blocks, so a swallowed hash failure resurfaces only as a
NameError when `content_hash` was never bound on an earlier line, and
a swallowed shape mismatch resurfaces as an execute failure (the SQL
column list and value list disagree).  A failure of either stage of
image processing never resurfaces at all.  The events record, per
line, which stage would raise; `freshHash` is the digest the line
would compute. -/
structure LineEvents where
  transformExc : Bool
  hashExc : Bool
  imageExc : Bool
  shapeMismatch : Bool
  insertExc : Bool
  freshHash : String
deriving DecidableEq

/-- The run counters (`insert_count`, `error_count`), the current
binding of the loop-carried `content_hash` variable, and the hashes of
the rows actually inserted so far. -/
structure RunState where
  insert_count : Nat
  error_count : Nat
  lastHash : Option String
  rows : List String
deriving DecidableEq

/-- One pass of the `for line in sortedInserts` body for a READERWARE
insert line, following the try/except topology above. -/
def processLine (st : RunState) (ev : LineEvents) : RunState :=
  if ev.transformExc then
    { st with error_count := st.error_count + 1 }
  else
    match (if ev.hashExc then st.lastHash else some ev.freshHash) with
    | none => { st with error_count := st.error_count + 1 }
    | some h =>
      if ev.shapeMismatch || ev.insertExc then
        { st with lastHash := some h, error_count := st.error_count + 1 }
      else
        { st with lastHash := some h, insert_count := st.insert_count + 1,
                  rows := st.rows ++ [h] }

/-- The whole loop over the insert lines. -/
def processAll (st : RunState) (evs : List LineEvents) : RunState :=
  evs.foldl processLine st

end RwScripts

namespace RwScripts

/-! ### Basic lemmas about the string models -/

theorem containsSub_iff_infix {pat l : List Char} : containsSub pat l = true ↔ pat <:+: l := by
  induction l with
  | nil => simp [containsSub, List.isEmpty_iff]
  | cons c t ih =>
    simp only [containsSub, Bool.or_eq_true, ih, List.infix_cons_iff,
      List.isPrefixOf_iff_prefix]

theorem strContains_of_infix {s : String} {p q : String}
    (hpq : q.data <:+: p.data) (hp : strContains s p = true) : strContains s q = true := by
  rw [strContains, containsSub_iff_infix] at hp ⊢
  exact hpq.trans hp

/-- A line that starts with the READERWARE insert literal starts with the
generic insert literal. -/
theorem isInsert_of_isMain {l : String} (h : isMainInsertLine l = true) : isInsertLine l = true := by
  rw [isMainInsertLine, lineStarts, List.isPrefixOf_iff_prefix] at h
  rw [isInsertLine, lineStarts, List.isPrefixOf_iff_prefix]
  exact List.IsPrefix.trans ⟨" READERWARE VALUES".data, rfl⟩ h

/-! ### C6 — the integer sentinel duality -/

/-- C6: the two integer transforms realise the sentinel duality: the
nullable transform maps the literal `"-1"` to NULL while the NOT NULL
transform keeps the integer `-1`; and for integer-typed columns
(`BIGINT`/`INTEGER`, not text-like) `get_transform_function` selects the
nullable transform exactly when the column is not declared NOT NULL. -/
theorem integer_sentinel_duality :
    (∀ (col_type : String) (is_not_null : Bool),
      strContains (pyUpper col_type) "CHAR" = false →
      (strContains (pyUpper col_type) "BIGINT" = true ∨
        strContains (pyUpper col_type) "INTEGER" = true) →
      get_transform_function col_type is_not_null =
        some (if is_not_null then TransformTag.parseIntNotNull else TransformTag.parseInt)) ∧
    parse_int "-1" = RwValue.null ∧
    parse_int_not_null "-1" = RwValue.int (-1) := by
  refine ⟨?_, by decide, by decide⟩
  intro col_type nn hchar hint
  have hvar : strContains (pyUpper col_type) "VARCHAR" = false := by
    by_contra h
    rw [Bool.not_eq_false] at h
    have hc : strContains (pyUpper col_type) "CHAR" = true :=
      strContains_of_infix ⟨['V', 'A', 'R'], [], rfl⟩ h
    rw [hc] at hchar
    exact Bool.true_eq_false ▸ hchar
  rcases hint with h | h <;> cases nn <;> simp [get_transform_function, hvar, hchar, h]

/-- Witness for C6 at concrete inputs. -/
theorem integer_sentinel_duality_witness :
    get_transform_function "BIGINT" false = some TransformTag.parseInt ∧
    get_transform_function "INTEGER" true = some TransformTag.parseIntNotNull := by
  constructor
  · have h := integer_sentinel_duality.1 "BIGINT" false (by decide) (Or.inl (by decide))
    simpa using h
  · have h := integer_sentinel_duality.1 "INTEGER" true (by decide) (Or.inr (by decide))
    simpa using h

/-! ### C8 — transforms recover from coercion failure -/

/-- C8: every transform is a total function of the input string (each is
a Lean function, so totality is by construction), and on any input where
the underlying type coercion fails the transform yields NULL — or the
integer `0` for the NOT NULL integer transform — rather than an error. -/
theorem transform_coercion_failure_yields_null (v : String) :
    (pyIntParse v = none → parse_int v = RwValue.null ∧ parse_int_not_null v = RwValue.int 0) ∧
    (pyFloatParse v = none → parse_float v = RwValue.null) ∧
    (pyUnhexlify v = none → parse_blob v = RwValue.null) ∧
    (v ≠ "TRUE" → v ≠ "FALSE" → parse_boolean v = RwValue.null) := by
  refine ⟨fun h => ⟨?_, ?_⟩, fun h => ?_, fun h => ?_, fun h1 h2 => ?_⟩
  · by_cases hv : v = "" ∨ v = "NULL" <;> simp [parse_int, hv, h]
  · by_cases hv : v = "" ∨ v = "NULL" <;> simp [parse_int_not_null, hv, h]
  · by_cases hv : v = "" ∨ v = "NULL" <;> simp [parse_float, hv, h]
  · by_cases hv : v = "" ∨ v = "NULL" <;> simp [parse_blob, hv, h]
  · simp [parse_boolean, h1, h2]

/-- Witness for C8 at the concrete non-numeric input `"abc"`. -/
theorem transform_coercion_failure_witness :
    pyIntParse "abc" = none ∧ parse_int "abc" = RwValue.null ∧
    parse_int_not_null "abc" = RwValue.int 0 ∧ parse_float "abc" = RwValue.null ∧
    parse_blob "abc" = RwValue.null ∧ parse_boolean "abc" = RwValue.null := by
  have h := transform_coercion_failure_yields_null "abc"
  exact ⟨by decide, (h.1 (by decide)).1, (h.1 (by decide)).2, h.2.1 (by decide),
    h.2.2.1 (by decide), h.2.2.2 (by decide) (by decide)⟩

/-! ### C9 — classifier bucket order -/

theorem splitBackupLines_foldl (lines : List String) (b : Buckets) :
    (lines.foldl classifyLine b).otherInsertLines =
      b.otherInsertLines ++ lines.filter (fun l => isInsertLine l && !isMainInsertLine l) ∧
    (lines.foldl classifyLine b).readerwareLines =
      b.readerwareLines ++ lines.filter (fun l => isMainInsertLine l) := by
  induction lines generalizing b with
  | nil => simp
  | cons l t ih =>
    rcases ih (classifyLine b l) with ⟨iho, ihr⟩
    rw [List.foldl_cons, iho, ihr]
    constructor
    · by_cases hm : isMainInsertLine l = true
      · have hi : isInsertLine l = true := isInsert_of_isMain hm
        simp [classifyLine, hi, hm, List.filter_cons]
      · by_cases hi : isInsertLine l = true
        · simp [classifyLine, hi, hm, List.filter_cons, List.append_assoc]
        · by_cases hc : isCreateLine l = true <;>
            simp [classifyLine, hi, hm, hc, List.filter_cons]
    · by_cases hm : isMainInsertLine l = true
      · have hi : isInsertLine l = true := isInsert_of_isMain hm
        simp [classifyLine, hi, hm, List.filter_cons, List.append_assoc]
      · by_cases hi : isInsertLine l = true
        · simp [classifyLine, hi, hm, List.filter_cons]
        · by_cases hc : isCreateLine l = true <;>
            simp [classifyLine, hi, hm, hc, List.filter_cons]

/-! ### C1 — cover-image selection -/

theorem le_foldl_max_init (l : List (List Nat)) (a : Nat) :
    a ≤ l.foldl (fun x b => Nat.max x b.length) a := by
  induction l generalizing a with
  | nil => simp
  | cons d t ih => exact le_trans (Nat.le_max_left _ _) (ih _)

theorem foldl_max_le_mem {l : List (List Nat)} {c : List Nat} (hc : c ∈ l) (a : Nat) :
    c.length ≤ l.foldl (fun x b => Nat.max x b.length) a := by
  induction l generalizing a with
  | nil => cases hc
  | cons d t ih =>
    rcases List.mem_cons.mp hc with rfl | hc
    · exact le_trans (Nat.le_max_right _ _) (le_foldl_max_init t _)
    · exact ih hc _

theorem foldl_max_attained (l : List (List Nat)) (a : Nat) :
    l.foldl (fun x b => Nat.max x b.length) a = a ∨
      ∃ c ∈ l, l.foldl (fun x b => Nat.max x b.length) a = c.length := by
  induction l generalizing a with
  | nil => exact Or.inl rfl
  | cons d t ih =>
    rcases ih (Nat.max a d.length) with h | ⟨c, hc, h⟩
    · rw [List.foldl_cons, h]
      rcases Nat.le_total a d.length with hle | hle
      · exact Or.inr ⟨d, List.mem_cons_self .., Nat.max_eq_right hle⟩
      · exact Or.inl (Nat.max_eq_left hle)
    · exact Or.inr ⟨c, List.mem_cons_of_mem _ hc, h⟩

theorem foldl_min_le_init (l : List (List Nat)) (a : Nat) :
    l.foldl (fun x b => Nat.min x b.length) a ≤ a := by
  induction l generalizing a with
  | nil => simp
  | cons d t ih => exact le_trans (ih _) (Nat.min_le_left _ _)

theorem foldl_min_le_mem {l : List (List Nat)} {c : List Nat} (hc : c ∈ l) (a : Nat) :
    l.foldl (fun x b => Nat.min x b.length) a ≤ c.length := by
  induction l generalizing a with
  | nil => cases hc
  | cons d t ih =>
    rcases List.mem_cons.mp hc with rfl | hc
    · exact le_trans (foldl_min_le_init t _) (Nat.min_le_right _ _)
    · exact ih hc _

theorem le_foldl_min {l : List (List Nat)} {x a : Nat} (hx : x ≤ a)
    (h : ∀ c ∈ l, x ≤ c.length) : x ≤ l.foldl (fun x b => Nat.min x b.length) a := by
  induction l generalizing a with
  | nil => simpa using hx
  | cons d t ih =>
    exact ih (Nat.le_min.mpr ⟨hx, h d (List.mem_cons_self ..)⟩)
      (fun c hc => h c (List.mem_cons_of_mem _ hc))

theorem foldl_min_attained (l : List (List Nat)) (a : Nat) :
    l.foldl (fun x b => Nat.min x b.length) a = a ∨
      ∃ c ∈ l, l.foldl (fun x b => Nat.min x b.length) a = c.length := by
  induction l generalizing a with
  | nil => exact Or.inl rfl
  | cons d t ih =>
    rcases ih (Nat.min a d.length) with h | ⟨c, hc, h⟩
    · rw [List.foldl_cons, h]
      rcases Nat.le_total a d.length with hle | hle
      · exact Or.inl (Nat.min_eq_left hle)
      · exact Or.inr ⟨d, List.mem_cons_self .., Nat.min_eq_right hle⟩
    · exact Or.inr ⟨c, List.mem_cons_of_mem _ hc, h⟩

theorem find?_congr_mem {α : Type} {p q : α → Bool} :
    ∀ {l : List α}, (∀ x ∈ l, p x = q x) → l.find? p = l.find? q
  | [], _ => rfl
  | a :: t, h => by
    have ha := h a (List.mem_cons_self ..)
    by_cases hp : p a = true
    · rw [List.find?_cons_of_pos _ hp, List.find?_cons_of_pos _ (ha ▸ hp)]
    · rw [List.find?_cons_of_neg _ hp, List.find?_cons_of_neg _ (by rw [← ha]; exact hp)]
      exact find?_congr_mem (fun x hx => h x (List.mem_cons_of_mem _ hx))

/-- The scan only looks at the candidate blobs, in order. -/
theorem foldl_coverStep_eq (images : List (Option (List Nat))) (s : CoverScanState) :
    images.foldl coverStep s = (coverCandidates images).foldl candStep s := by
  induction images generalizing s with
  | nil => rfl
  | cons i t ih =>
    cases i with
    | none => simpa [coverCandidates, coverStep, List.filterMap_cons] using ih s
    | some b =>
      by_cases hb : b = []
      · subst hb
        simpa [coverCandidates, coverStep, List.filterMap_cons, List.filter_cons] using ih s
      · by_cases h4 : 4 < b.length
        · simpa [coverCandidates, coverStep, List.filterMap_cons, List.filter_cons, hb, h4]
            using ih (candStep s b)
        · simpa [coverCandidates, coverStep, List.filterMap_cons, List.filter_cons, hb, h4]
            using ih s

theorem maxCandLen_ge_mem {l : List (List Nat)} {c : List Nat} (hc : c ∈ l) :
    c.length ≤ maxCandLen l := foldl_max_le_mem hc 0

theorem maxCandLen_attained (l : List (List Nat)) :
    maxCandLen l = 0 ∨ ∃ c ∈ l, maxCandLen l = c.length := foldl_max_attained l 0

theorem minCandLen_le_mem {l : List (List Nat)} {c : List Nat} (hc : c ∈ l) :
    minCandLen l ≤ c.length := foldl_min_le_mem hc 100000

theorem minCandLen_le_cap (l : List (List Nat)) : minCandLen l ≤ 100000 :=
  foldl_min_le_init l 100000

theorem le_minCandLen {l : List (List Nat)} {x : Nat} (hx : x ≤ 100000)
    (h : ∀ c ∈ l, x ≤ c.length) : x ≤ minCandLen l := le_foldl_min hx h

theorem minCandLen_attained (l : List (List Nat)) :
    minCandLen l = 100000 ∨ ∃ c ∈ l, minCandLen l = c.length := foldl_min_attained l 100000

theorem largestCandidate_append (t : List (List Nat)) (b : List Nat) (hb : 0 < b.length) :
    largestCandidate (t ++ [b]) =
      if maxCandLen t < b.length then some b else largestCandidate t := by
  by_cases h1 : maxCandLen t < b.length
  · rw [if_pos h1, largestCandidate, List.find?_append]
    have hnone : t.find? (fun c => (t ++ [b]).all fun d => d.length ≤ c.length) = none := by
      rw [List.find?_eq_none]
      intro x hx hall
      have h2 : b.length ≤ x.length := by
        simpa using List.all_eq_true.mp hall b (by simp)
      have h3 : x.length ≤ maxCandLen t := maxCandLen_ge_mem hx
      omega
    have hpb : ((t ++ [b]).all fun d => decide (d.length ≤ b.length)) = true := by
      rw [List.all_eq_true]
      intro d hd
      rcases List.mem_append.mp hd with hd | hd
      · have := maxCandLen_ge_mem hd
        simp only [decide_eq_true_eq]
        omega
      · simp at hd
        simp [hd]
    have hone : List.find? (fun c => (t ++ [b]).all fun d => decide (d.length ≤ c.length)) [b] =
        some b := List.find?_cons_of_pos _ hpb
    rw [hnone, hone]
    rfl
  · rw [if_neg h1]
    push_neg at h1
    have hex : ∃ c0 ∈ t, maxCandLen t = c0.length := by
      rcases maxCandLen_attained t with hm | hm
      · exfalso
        omega
      · exact hm
    rcases hex with ⟨c0, hc0, hm⟩
    have hagree : ∀ x ∈ t,
        ((t ++ [b]).all fun d => decide (d.length ≤ x.length)) =
          (t.all fun d => decide (d.length ≤ x.length)) := by
      intro x hx
      rw [List.all_append]
      by_cases hq : (t.all fun d => decide (d.length ≤ x.length)) = true
      · have hcx : c0.length ≤ x.length := by
          simpa using List.all_eq_true.mp hq c0 hc0
        have hbx : b.length ≤ x.length := by omega
        rw [hq]
        simp [hbx]
      · rw [Bool.not_eq_true] at hq
        rw [hq]
        simp
    have hfind : t.find? (fun c => t.all fun d => decide (d.length ≤ c.length)) ≠ none := by
      intro hE
      have hp0 : (t.all fun d => decide (d.length ≤ c0.length)) = true := by
        rw [List.all_eq_true]
        intro d hd
        have := maxCandLen_ge_mem hd
        simp only [decide_eq_true_eq]
        omega
      exact (List.find?_eq_none.mp hE c0 hc0) hp0
    rcases hy : t.find? (fun c => t.all fun d => decide (d.length ≤ c.length)) with _ | y
    · exact absurd hy hfind
    · rw [largestCandidate, List.find?_append, find?_congr_mem hagree, largestCandidate, hy]
      rfl

theorem smallestCandidateUnderCap_append (t : List (List Nat)) (b : List Nat) :
    smallestCandidateUnderCap (t ++ [b]) =
      if b.length < minCandLen t then some b else smallestCandidateUnderCap t := by
  by_cases h1 : b.length < minCandLen t
  · rw [if_pos h1, smallestCandidateUnderCap, List.find?_append]
    have hcap : minCandLen t ≤ 100000 := minCandLen_le_cap t
    have hnone : t.find? (fun c =>
        decide (c.length < 100000) && (t ++ [b]).all fun d => c.length ≤ d.length) = none := by
      rw [List.find?_eq_none]
      intro x hx hall
      rw [Bool.and_eq_true] at hall
      have hxb : x.length ≤ b.length := by
        simpa using List.all_eq_true.mp hall.2 b (by simp)
      have hmx : minCandLen t ≤ x.length := minCandLen_le_mem hx
      omega
    have hpb : (decide (b.length < 100000) &&
        ((t ++ [b]).all fun d => decide (b.length ≤ d.length))) = true := by
      rw [Bool.and_eq_true]
      constructor
      · simp only [decide_eq_true_eq]
        omega
      · rw [List.all_eq_true]
        intro d hd
        rcases List.mem_append.mp hd with hd | hd
        · have := minCandLen_le_mem hd
          simp only [decide_eq_true_eq]
          omega
        · simp at hd
          simp [hd]
    have hone : List.find? (fun c => decide (c.length < 100000) &&
        ((t ++ [b]).all fun d => decide (c.length ≤ d.length))) [b] = some b :=
      List.find?_cons_of_pos _ hpb
    rw [hnone, hone]
    rfl
  · rw [if_neg h1]
    push_neg at h1
    have hagree : ∀ x ∈ t,
        (decide (x.length < 100000) && ((t ++ [b]).all fun d => decide (x.length ≤ d.length))) =
          (decide (x.length < 100000) && (t.all fun d => decide (x.length ≤ d.length))) := by
      intro x hx
      rw [List.all_append]
      by_cases hq : (decide (x.length < 100000) &&
          (t.all fun d => decide (x.length ≤ d.length))) = true
      · have hq' := hq
        rw [Bool.and_eq_true] at hq'
        have hxmin : x.length ≤ minCandLen t := by
          apply le_minCandLen
          · have := hq'.1
            simp only [decide_eq_true_eq] at this
            omega
          · intro c hc
            simpa using List.all_eq_true.mp hq'.2 c hc
        have hxb : x.length ≤ b.length := le_trans hxmin h1
        rw [hq'.1, hq'.2]
        simp [hxb]
      · by_cases hq1 : (decide (x.length < 100000)) = true
        · have hq2 : (t.all fun d => decide (x.length ≤ d.length)) = false := by
            rcases Bool.eq_false_or_eq_true (t.all fun d => decide (x.length ≤ d.length))
              with h2 | h2
            · exact absurd (by rw [Bool.and_eq_true]; exact ⟨hq1, h2⟩) hq
            · exact h2
          rw [hq1, hq2]
          simp
        · rw [Bool.not_eq_true] at hq1
          rw [hq1]
          simp
    rw [smallestCandidateUnderCap, List.find?_append, find?_congr_mem hagree]
    rcases hE : t.find? (fun c => decide (c.length < 100000) &&
        (t.all fun d => decide (c.length ≤ d.length))) with _ | y
    · have hqb : (decide (b.length < 100000) &&
          ((t ++ [b]).all fun d => decide (b.length ≤ d.length))) = false := by
        by_contra hcon
        rw [Bool.not_eq_false, Bool.and_eq_true] at hcon
        rcases hcon with ⟨hb1, hb2⟩
        have hb1' : b.length < 100000 := by
          simpa using hb1
        have hble : b.length ≤ minCandLen t := by
          apply le_minCandLen
          · omega
          · intro c hc
            simpa using List.all_eq_true.mp hb2 c (List.mem_append_left _ hc)
        have hbeq : b.length = minCandLen t := le_antisymm hble h1
        rcases minCandLen_attained t with hm | ⟨c0, hc0, hm⟩
        · omega
        · have hq0 : (decide (c0.length < 100000) &&
              (t.all fun d => decide (c0.length ≤ d.length))) = true := by
            rw [Bool.and_eq_true]
            constructor
            · simp only [decide_eq_true_eq]
              omega
            · rw [List.all_eq_true]
              intro d hd
              have := minCandLen_le_mem hd
              simp only [decide_eq_true_eq]
              omega
          exact (List.find?_eq_none.mp hE c0 hc0) hq0
      rw [smallestCandidateUnderCap, hE]
      rw [show (List.find? (fun c => decide (c.length < 100000) &&
          ((t ++ [b]).all fun d => decide (c.length ≤ d.length))) [b]) = none from
        List.find?_cons_of_neg _ (by rw [hqb]; exact Bool.false_ne_true)]
      rfl
    · rw [smallestCandidateUnderCap, hE]
      rfl

/-- Characterisation of the whole scan over a list of candidates. -/
theorem candScan_spec (l : List (List Nat)) (hl : ∀ b ∈ l, 4 < b.length) :
    l.foldl candStep coverInit =
      ⟨maxCandLen l, largestCandidate l, minCandLen l, smallestCandidateUnderCap l⟩ := by
  induction l using List.reverseRecOn with
  | nil => rfl
  | append_singleton t b ih =>
    have hb : 4 < b.length := hl b (by simp)
    have ht : ∀ x ∈ t, 4 < x.length := fun x hx => hl x (by simp [hx])
    rw [List.foldl_append, ih ht, List.foldl_cons, List.foldl_nil]
    have hmx : maxCandLen (t ++ [b]) = Nat.max (maxCandLen t) b.length := by
      simp [maxCandLen, List.foldl_append]
    have hmn : minCandLen (t ++ [b]) = Nat.min (minCandLen t) b.length := by
      simp [minCandLen, List.foldl_append]
    rw [hmx, hmn, largestCandidate_append t b (by omega), smallestCandidateUnderCap_append t b]
    by_cases h1 : maxCandLen t < b.length <;> by_cases h2 : b.length < minCandLen t <;>
      simp [candStep, h1, h2, CoverScanState.mk.injEq] <;> omega

theorem coverCandidates_len (images : List (Option (List Nat))) :
    ∀ b ∈ coverCandidates images, 4 < b.length := by
  intro b hb
  have := List.of_mem_filter hb
  simpa using this

/-- C1 (amended): over the four cover slots the scan ignores NULL,
empty, and at-most-4-byte blobs; the canonical large cover is the first
remaining candidate of maximal length (ties broken by slot order), and
the two unused original slots are always set to null; but the canonical
small cover is the first candidate of minimal length only when that
minimal length is below 100000 (the initialisation value of the running
minimum) — when every candidate is 100000 bytes or longer no small
cover is selected at all, and when no candidate remains both canonical
cover fields are null.  On the spec example of candidate lengths
[0, 1200, 50000, 300] the 300-byte blob is selected as small cover and
the 50000-byte blob as large cover. -/
theorem cover_selection_amended :
    (∀ images : List (Option (List Nat)),
      (coverScan images).mxImg = largestCandidate (coverCandidates images) ∧
      (coverScan images).mnImg = smallestCandidateUnderCap (coverCandidates images)) ∧
    (∀ (procS procL : List Nat → Option (List Nat)) (images : List (Option (List Nat))),
      applyCoverSelection procS procL images =
        [(smallestCandidateUnderCap (coverCandidates images)).bind procS,
          (largestCandidate (coverCandidates images)).bind procL, none, none] ∧
      (coverCandidates images = [] →
        applyCoverSelection procS procL images = [none, none, none, none])) ∧
    (coverScan [some [], some (List.replicate 1200 0), some (List.replicate 50000 0),
        some (List.replicate 300 0)]).mnImg = some (List.replicate 300 0) ∧
    (coverScan [some [], some (List.replicate 1200 0), some (List.replicate 50000 0),
        some (List.replicate 300 0)]).mxImg = some (List.replicate 50000 0) := by
  have hmain : ∀ images : List (Option (List Nat)),
      (coverScan images).mxImg = largestCandidate (coverCandidates images) ∧
      (coverScan images).mnImg = smallestCandidateUnderCap (coverCandidates images) := by
    intro images
    have h2 : coverScan images = (coverCandidates images).foldl candStep coverInit :=
      foldl_coverStep_eq images coverInit
    rw [h2, candScan_spec (coverCandidates images) (coverCandidates_len images)]
    exact ⟨rfl, rfl⟩
  refine ⟨hmain, ?_, ?_, ?_⟩
  · intro procS procL images
    constructor
    · rw [applyCoverSelection, (hmain images).1, (hmain images).2]
    · intro hE
      rw [applyCoverSelection, (hmain images).1, (hmain images).2, hE]
      rfl
  · have h2 : coverScan [some [], some (List.replicate 1200 0), some (List.replicate 50000 0),
        some (List.replicate 300 0)] =
        ⟨50000, some (List.replicate 50000 0), 300, some (List.replicate 300 0)⟩ := by
      norm_num [coverScan, coverStep, candStep, coverInit, List.replicate_eq_nil_iff]
    rw [h2]
  · have h2 : coverScan [some [], some (List.replicate 1200 0), some (List.replicate 50000 0),
        some (List.replicate 300 0)] =
        ⟨50000, some (List.replicate 50000 0), 300, some (List.replicate 300 0)⟩ := by
      norm_num [coverScan, coverStep, candStep, coverInit, List.replicate_eq_nil_iff]
    rw [h2]

/-- C1 counterexample: with the cover slots holding a single
150000-byte blob, a candidate remains — the candidate list is exactly
that blob, which is therefore also the smallest remaining candidate —
yet the scan sets no small cover (`minset` stays false because the blob
is not shorter than the 100000 initialisation of the running minimum),
so the canonical small cover field is set to null, contradicting the
claim that the smallest remaining candidate becomes the small cover. -/
theorem cover_selection_counterexample :
    coverCandidates [some (List.replicate 150000 0), none, none, none] =
      [List.replicate 150000 0] ∧
    (coverScan [some (List.replicate 150000 0), none, none, none]).mnImg = none ∧
    (coverScan [some (List.replicate 150000 0), none, none, none]).mxImg =
      some (List.replicate 150000 0) := by
  refine ⟨?_, ?_, ?_⟩
  · norm_num [coverCandidates, List.filterMap_cons, List.filter_cons]
  · have h2 : coverScan [some (List.replicate 150000 0), none, none, none] =
        ⟨150000, some (List.replicate (150000 : Nat) (0 : Nat)), 100000, none⟩ := by
      norm_num [coverScan, coverStep, candStep, coverInit, List.replicate_eq_nil_iff]
    rw [h2]
  · have h2 : coverScan [some (List.replicate 150000 0), none, none, none] =
        ⟨150000, some (List.replicate (150000 : Nat) (0 : Nat)), 100000, none⟩ := by
      norm_num [coverScan, coverStep, candStep, coverInit, List.replicate_eq_nil_iff]
    rw [h2]

/-! ### C5 — the value tokenizer -/

theorem string_mk_data (s : String) : String.mk s.data = s := by
  cases s
  rfl

theorem csvGo_nil (st : CsvState) (cur : List Char) (acc : List (List Char)) :
    csvGo st [] cur acc = acc ++ [cur] := by
  cases st <;> rfl

theorem csvGo_startField_quote (rest cur : List Char) (acc : List (List Char)) :
    csvGo .startField ('\'' :: rest) cur acc = csvGo .inQuoted rest cur acc := by
  simp [csvGo]

theorem csvGo_startField_other {c : Char} (hq : ¬c = '\'') (hcm : ¬c = ',')
    (rest cur : List Char) (acc : List (List Char)) :
    csvGo .startField (c :: rest) cur acc = csvGo .inField rest (cur ++ [c]) acc := by
  simp [csvGo, hq, hcm]

theorem csvGo_inField_comma (rest cur : List Char) (acc : List (List Char)) :
    csvGo .inField (',' :: rest) cur acc = csvGo .startField rest [] (acc ++ [cur]) := by
  simp [csvGo]

theorem csvGo_inField_other {c : Char} (hcm : ¬c = ',') (rest cur : List Char)
    (acc : List (List Char)) :
    csvGo .inField (c :: rest) cur acc = csvGo .inField rest (cur ++ [c]) acc := by
  simp [csvGo, hcm]

theorem csvGo_inQuoted_quote (rest cur : List Char) (acc : List (List Char)) :
    csvGo .inQuoted ('\'' :: rest) cur acc = csvGo .quoteInQuoted rest cur acc := by
  simp [csvGo]

theorem csvGo_inQuoted_other {c : Char} (hq : ¬c = '\'') (rest cur : List Char)
    (acc : List (List Char)) :
    csvGo .inQuoted (c :: rest) cur acc = csvGo .inQuoted rest (cur ++ [c]) acc := by
  simp [csvGo, hq]

theorem csvGo_quoteInQuoted_quote (rest cur : List Char) (acc : List (List Char)) :
    csvGo .quoteInQuoted ('\'' :: rest) cur acc = csvGo .inQuoted rest (cur ++ ['\'']) acc := by
  simp [csvGo]

theorem csvGo_quoteInQuoted_comma (rest cur : List Char) (acc : List (List Char)) :
    csvGo .quoteInQuoted (',' :: rest) cur acc = csvGo .startField rest [] (acc ++ [cur]) := by
  simp [csvGo]

theorem csvGo_quoted (s : List Char) : ∀ (rest cur : List Char) (acc : List (List Char)),
    csvGo .inQuoted (encodeQuotes s ++ '\'' :: rest) cur acc =
      csvGo .quoteInQuoted rest (cur ++ s) acc := by
  induction s with
  | nil =>
    intro rest cur acc
    rw [show encodeQuotes [] ++ '\'' :: rest = '\'' :: rest from rfl, csvGo_inQuoted_quote]
    simp
  | cons c cs ih =>
    intro rest cur acc
    by_cases hc : c = '\''
    · subst hc
      rw [show encodeQuotes ('\'' :: cs) ++ '\'' :: rest =
            '\'' :: '\'' :: (encodeQuotes cs ++ '\'' :: rest) by simp [encodeQuotes],
        csvGo_inQuoted_quote, csvGo_quoteInQuoted_quote, ih]
      simp
    · rw [show encodeQuotes (c :: cs) ++ '\'' :: rest =
            c :: (encodeQuotes cs ++ '\'' :: rest) by simp [encodeQuotes, hc],
        csvGo_inQuoted_other hc, ih]
      simp

theorem csvGo_inField_run (cs : List Char) : ∀ (rest cur : List Char) (acc : List (List Char)),
    ',' ∉ cs → csvGo .inField (cs ++ rest) cur acc = csvGo .inField rest (cur ++ cs) acc := by
  induction cs with
  | nil =>
    intro rest cur acc _
    simp
  | cons c cs ih =>
    intro rest cur acc hmem
    have hc : ¬c = ',' := fun h => hmem (h ▸ List.mem_cons_self ..)
    have hcs : ',' ∉ cs := fun h => hmem (List.mem_cons_of_mem _ h)
    rw [List.cons_append, csvGo_inField_other hc, ih rest (cur ++ [c]) acc hcs]
    simp

theorem renderToken_consume_comma (v : SqlToken) (hv : tokenOk v) (rest : List Char)
    (acc : List (List Char)) :
    csvGo .startField (renderToken v ++ ',' :: rest) [] acc =
      csvGo .startField rest [] (acc ++ [(tokenValue v).data]) := by
  cases v with
  | str s =>
    rw [renderToken, List.cons_append, csvGo_startField_quote,
      show (encodeQuotes s.data ++ ['\'']) ++ ',' :: rest =
        encodeQuotes s.data ++ '\'' :: (',' :: rest) by simp,
      csvGo_quoted s.data (',' :: rest) [] acc, csvGo_quoteInQuoted_comma]
    rfl
  | raw s =>
    rcases hv with ⟨hne, hhead, hcomma⟩
    rcases hd : s.data with _ | ⟨c, cs⟩
    · exact absurd (by cases s <;> simp_all) hne
    · have hcq : ¬c = '\'' := by
        intro h
        rw [hd, h] at hhead
        exact hhead rfl
      have hcc : ¬c = ',' := by
        intro h
        rw [hd, h] at hcomma
        exact hcomma (List.mem_cons_self ..)
      have hcs : ',' ∉ cs := by
        intro h
        rw [hd] at hcomma
        exact hcomma (List.mem_cons_of_mem _ h)
      rw [renderToken, hd, List.cons_append, csvGo_startField_other hcq hcc,
        csvGo_inField_run cs (',' :: rest) ([] ++ [c]) acc hcs, csvGo_inField_comma]
      rw [tokenValue, hd]
      simp

theorem renderToken_consume_end (v : SqlToken) (hv : tokenOk v) (acc : List (List Char)) :
    csvGo .startField (renderToken v) [] acc = acc ++ [(tokenValue v).data] := by
  cases v with
  | str s =>
    rw [renderToken, csvGo_startField_quote,
      show encodeQuotes s.data ++ ['\''] = encodeQuotes s.data ++ '\'' :: [] from rfl,
      csvGo_quoted s.data [] [] acc, csvGo_nil]
    rfl
  | raw s =>
    rcases hv with ⟨hne, hhead, hcomma⟩
    rcases hd : s.data with _ | ⟨c, cs⟩
    · exact absurd (by cases s <;> simp_all) hne
    · have hcq : ¬c = '\'' := by
        intro h
        rw [hd, h] at hhead
        exact hhead rfl
      have hcc : ¬c = ',' := by
        intro h
        rw [hd, h] at hcomma
        exact hcomma (List.mem_cons_self ..)
      have hcs : ',' ∉ cs := by
        intro h
        rw [hd] at hcomma
        exact hcomma (List.mem_cons_of_mem _ h)
      rw [renderToken, hd, show (c :: cs : List Char) = c :: (cs ++ []) by simp,
        csvGo_startField_other hcq hcc, csvGo_inField_run cs [] ([] ++ [c]) acc hcs, csvGo_nil]
      rw [tokenValue, hd]
      simp

theorem csvGo_renderValueList (vs : List SqlToken) (hwf : ∀ v ∈ vs, tokenOk v) :
    ∀ acc, vs ≠ [] → csvGo .startField (renderValueList vs) [] acc =
      acc ++ vs.map (fun v => (tokenValue v).data) := by
  induction vs with
  | nil =>
    intro acc h
    exact absurd rfl h
  | cons v t ih =>
    intro acc _
    cases t with
    | nil =>
      rw [renderValueList, renderToken_consume_end v (hwf v (List.mem_cons_self ..)) acc]
      simp
    | cons w r =>
      rw [renderValueList, renderToken_consume_comma v (hwf v (List.mem_cons_self ..)) _ acc,
        ih (fun x hx => hwf x (List.mem_cons_of_mem _ hx)) _ (by simp)]
      simp

theorem renderValueList_ne_nil (vs : List SqlToken) (h : vs ≠ [])
    (hwf : ∀ v ∈ vs, tokenOk v) : renderValueList vs ≠ [] := by
  cases vs with
  | nil => exact absurd rfl h
  | cons v t =>
    cases t with
    | nil =>
      rw [renderValueList]
      cases v with
      | str s => simp [renderToken]
      | raw s =>
        rcases hwf (SqlToken.raw s) (List.mem_cons_self ..) with ⟨hne, _, _⟩
        rw [renderToken]
        intro hcon
        exact hne (by cases s <;> simp_all)
    | cons w r =>
      rw [renderValueList]
      simp

/-- C5: the tokenizer yields exactly one token per source column.  For
every nonempty well-formed value list — quoted string literals with
doubled-quote escaping, and unquoted literals (NULL/TRUE/FALSE, bare
numbers, X'hex' hex literals, which contain no comma and do not start
with a quote) — parsing the serialised list yields exactly the per
column tokens, commas inside quoted strings being data; in particular
the list has one token per column.  Concretely, `'O''Brien'` yields the
single token `O'Brien`, and the hex literal token `X'4A504547'` passes
through the tokenizer unchanged and `parse_value` decodes it to the
four raw bytes `J P E G` (74, 80, 69, 71). -/
theorem tokenizer_one_token_per_column (vs : List SqlToken) (hne : vs ≠ [])
    (hwf : ∀ v ∈ vs, tokenOk v) :
    csvParse (renderValueList vs) = vs.map tokenValue ∧
    (csvParse (renderValueList vs)).length = vs.length ∧
    csvParse ("'O''Brien'".data) = ["O'Brien"] ∧
    csvParse ("X'4A504547'".data) = ["X'4A504547'"] ∧
    parse_value "X'4A504547'" = some (RwValue.blob [74, 80, 69, 71]) := by
  have h1 : csvParse (renderValueList vs) = vs.map tokenValue := by
    rw [csvParse, if_neg (renderValueList_ne_nil vs hne hwf),
      csvGo_renderValueList vs hwf [] hne]
    simp [List.map_map, Function.comp_def, string_mk_data]
  refine ⟨h1, by rw [h1]; simp, by decide, by decide, by decide⟩

/-- Witness for C5 at a concrete four-column value list. -/
theorem tokenizer_one_token_per_column_witness :
    csvParse (renderValueList [SqlToken.str "O'Brien", SqlToken.raw "X'4A504547'",
        SqlToken.raw "NULL", SqlToken.raw "42"]) =
      ["O'Brien", "X'4A504547'", "NULL", "42"] := by
  have h := tokenizer_one_token_per_column [SqlToken.str "O'Brien", SqlToken.raw "X'4A504547'",
    SqlToken.raw "NULL", SqlToken.raw "42"] (by decide) (by decide)
  rw [h.1]
  decide

/-! ### C4 — the ContentHash -/

theorem string_data_inj {a b : String} (h : a.data = b.data) : a = b := by
  cases a
  cases b
  exact congrArg String.mk h

theorem string_append_cancel_right {a b c : String} (h : a ++ c = b ++ c) : a = b := by
  have hd := congrArg String.data h
  rw [String.data_append, String.data_append] at hd
  exact string_data_inj (List.append_cancel_right hd)

theorem string_append_cancel_left {a b c : String} (h : a ++ b = a ++ c) : b = c := by
  have hd := congrArg String.data h
  rw [String.data_append, String.data_append] at hd
  exact string_data_inj (List.append_cancel_left hd)

theorem joinBars_inj_first (t1 t2 i p : String)
    (h : joinWith "||" [t1, i, p] = joinWith "||" [t2, i, p]) : t1 = t2 := by
  have h1 : (t1 ++ "||") ++ ((i ++ "||") ++ p) = (t2 ++ "||") ++ ((i ++ "||") ++ p) := h
  exact string_append_cancel_right (string_append_cancel_right h1)

theorem joinBars_inj_second (t i1 i2 p : String)
    (h : joinWith "||" [t, i1, p] = joinWith "||" [t, i2, p]) : i1 = i2 := by
  have h1 : (t ++ "||") ++ ((i1 ++ "||") ++ p) = (t ++ "||") ++ ((i2 ++ "||") ++ p) := h
  have h2 := string_append_cancel_left h1
  exact string_append_cancel_right (string_append_cancel_right h2)

theorem joinBars_inj_third (t i p1 p2 : String)
    (h : joinWith "||" [t, i, p1] = joinWith "||" [t, i, p2]) : p1 = p2 := by
  have h1 : (t ++ "||") ++ ((i ++ "||") ++ p1) = (t ++ "||") ++ ((i ++ "||") ++ p2) := h
  exact string_append_cancel_left (string_append_cancel_left h1)

/-- C4 (amended): the ContentHash is a deterministic function of the
designated hash-field subset only — two rows agreeing at the TITLE,
ISBN and PAGES indices hash identically whatever every other field
(including the surrogate key) holds; a missing (None) hash field
contributes the empty-string placeholder rather than aborting; and
changing one hash-field value changes the delimiter-joined SHA-1 input
string whenever the two values' string projections differ.  (The
projection sends both None and the empty string to `""`, so a NULL and
an empty-text field are deliberately identified, and two distinct
inputs are only guaranteed distinct digests up to SHA-1 collisions —
the original claim fails there, see the counterexample.) -/
theorem content_hash_amended :
    (∀ (cols : List String) (r1 r2 : List RwValue) (i j k : Nat),
      cols.indexOf? "TITLE" = some i → cols.indexOf? "ISBN" = some j →
      cols.indexOf? "PAGES" = some k →
      r1.get? i = r2.get? i → r1.get? j = r2.get? j → r1.get? k = r2.get? k →
      rowContentHash cols r1 = rowContentHash cols r2) ∧
    hashPart RwValue.null = "" ∧
    (∀ t1 t2 i p : RwValue, hashPart t1 ≠ hashPart t2 →
      joinWith "||" [hashPart t1, hashPart i, hashPart p] ≠
        joinWith "||" [hashPart t2, hashPart i, hashPart p]) ∧
    (∀ t i1 i2 p : RwValue, hashPart i1 ≠ hashPart i2 →
      joinWith "||" [hashPart t, hashPart i1, hashPart p] ≠
        joinWith "||" [hashPart t, hashPart i2, hashPart p]) ∧
    (∀ t i p1 p2 : RwValue, hashPart p1 ≠ hashPart p2 →
      joinWith "||" [hashPart t, hashPart i, hashPart p1] ≠
        joinWith "||" [hashPart t, hashPart i, hashPart p2]) := by
  refine ⟨?_, rfl, ?_, ?_, ?_⟩
  · intro cols r1 r2 i j k hi hj hk h1 h2 h3
    rw [List.get?_eq_getElem?, List.get?_eq_getElem?] at h1 h2 h3
    simp [rowContentHash, hi, hj, hk, h1, h2, h3]
  · exact fun t1 t2 i p h he => h (joinBars_inj_first _ _ _ _ he)
  · exact fun t i1 i2 p h he => h (joinBars_inj_second _ _ _ _ he)
  · exact fun t i p1 p2 h he => h (joinBars_inj_third _ _ _ _ he)

/-- Witness for C4: two rows differing only in the surrogate key, with
title "Dune", isbn "9780441013593", pages 412, hash identically; and a
changed title with a different projection changes the SHA-1 input. -/
theorem content_hash_amended_witness :
    rowContentHash ["ROWKEY", "TITLE", "ISBN", "PAGES"]
        [RwValue.int 1, RwValue.text "Dune", RwValue.text "9780441013593", RwValue.int 412] =
      rowContentHash ["ROWKEY", "TITLE", "ISBN", "PAGES"]
        [RwValue.int 2, RwValue.text "Dune", RwValue.text "9780441013593", RwValue.int 412] ∧
    joinWith "||" [hashPart (RwValue.text "Dune"), hashPart (RwValue.text "9780441013593"),
        hashPart (RwValue.int 412)] ≠
      joinWith "||" [hashPart (RwValue.text "Tehanu"), hashPart (RwValue.text "9780441013593"),
        hashPart (RwValue.int 412)] := by
  constructor
  · exact content_hash_amended.1 ["ROWKEY", "TITLE", "ISBN", "PAGES"] _ _ 1 2 3
      rfl rfl rfl rfl rfl rfl
  · exact content_hash_amended.2.2.1 (RwValue.text "Dune") (RwValue.text "Tehanu")
      (RwValue.text "9780441013593") (RwValue.int 412) (by decide)

/-- C4 counterexample: NULL and the empty string are distinct
hash-field values, but both project to the empty-string placeholder, so
changing the TITLE hash field from NULL to the empty string does NOT
change the resulting hash — refuting "changing any one hash-field value
changes the resulting hash" as stated. -/
theorem content_hash_counterexample :
    RwValue.null ≠ RwValue.text "" ∧
    contentHash RwValue.null (RwValue.text "9780441013593") (RwValue.int 412) =
      contentHash (RwValue.text "") (RwValue.text "9780441013593") (RwValue.int 412) := by
  exact ⟨by decide, rfl⟩

/-! ### C2 — identity columns -/

set_option maxRecDepth 100000 in
/-- C2 evaluated at a concrete IDENTITY-bearing table: the identity
column does become `INTEGER PRIMARY KEY AUTOINCREMENT` in the target
DDL, as the claim says, but it is NOT excluded from the column-name
list `all_columns`, which is exactly the list joined into the explicit
INSERT column list at line 597 — `ROWKEY` is its first entry, so the
source surrogate-key value is inserted rather than assigned by the
target.  (The comment at line 595, "explicitly list columns to exclude
IDENTITY columns", contradicts what the code does.) -/
theorem identity_column_not_excluded :
    parse_create_table contributorCreateStmt "CONTRIBUTOR" =
      some ("CREATE TABLE CONTRIBUTOR (ROWKEY INTEGER PRIMARY KEY AUTOINCREMENT, NAME TEXT, SORT_NAME TEXT)",
        [(0, TransformTag.parseIntNotNull), (1, TransformTag.cleanString),
          (2, TransformTag.cleanString), (3, TransformTag.parseDate)],
        ["ROWKEY", "NAME", "SORT_NAME"], none) ∧
    joinWith "," ["ROWKEY", "NAME", "SORT_NAME"] = "ROWKEY,NAME,SORT_NAME" := by
  constructor
  · rfl
  · rfl

/-! ### C3/C10 — the merge engine -/

/-- A natural key already present in a target lookup table. -/
def nameInTarget (tgt : TargetState) (t : LookupTable) (n : String) : Prop :=
  ∃ r ∈ tgt.lookups t, r.name = n

/-- A ContentHash already present in the target BOOKS table. -/
def hashInTarget (tgt : TargetState) (h : String) : Prop :=
  ∃ b ∈ tgt.books, b.hash = h

/-- Target growth: every lookup row and every book survives. -/
def stateLe (s s2 : TargetState) : Prop :=
  (∀ t r, r ∈ s.lookups t → r ∈ s2.lookups t) ∧ ∀ b ∈ s.books, b ∈ s2.books

/-- Cache soundness: every cached natural key names a target row. -/
def cacheSound (c : MergeCache) (s : TargetState) : Prop :=
  ∀ t p, p ∈ c t → nameInTarget s t p.1

/-- The doubly-stripped natural name the merge derives for one foreign
key value (`src_lookups[table].get(old_key, "").strip()` followed by
the strip inside `get_or_create_lookup`). -/
def fkName (srcL : LookupTable → Nat → Option String) (f : MergeFK) (k : Nat) : String :=
  pyStrip (pyStrip ((srcL (fkTable f) k).getD ""))

/-- All natural names needed by a row's set foreign keys are present. -/
def rowNamesCovered (srcL : LookupTable → Nat → Option String) (row : BookRow)
    (s : TargetState) : Prop :=
  ∀ f k, row.fk f = some k → fkName srcL f k ≠ "" →
    nameInTarget s (fkTable f) (fkName srcL f k)

theorem stateLe_refl (s : TargetState) : stateLe s s :=
  ⟨fun _ _ h => h, fun _ h => h⟩

theorem stateLe_trans {a b c : TargetState} (h1 : stateLe a b) (h2 : stateLe b c) :
    stateLe a c :=
  ⟨fun t r hr => h2.1 t r (h1.1 t r hr), fun x hx => h2.2 x (h1.2 x hx)⟩

theorem nameInTarget_mono {s s2 : TargetState} {t : LookupTable} {n : String}
    (hle : stateLe s s2) (h : nameInTarget s t n) : nameInTarget s2 t n := by
  rcases h with ⟨r, hr, he⟩
  exact ⟨r, hle.1 t r hr, he⟩

theorem hashInTarget_mono {s s2 : TargetState} {h : String}
    (hle : stateLe s s2) (hh : hashInTarget s h) : hashInTarget s2 h := by
  rcases hh with ⟨b, hb, he⟩
  exact ⟨b, hle.2 b hb, he⟩

theorem cacheSound_mono {c : MergeCache} {s s2 : TargetState}
    (hle : stateLe s s2) (h : cacheSound c s) : cacheSound c s2 :=
  fun t p hp => nameInTarget_mono hle (h t p hp)

theorem rowNamesCovered_mono {srcL : LookupTable → Nat → Option String} {row : BookRow}
    {s s2 : TargetState} (hle : stateLe s s2) (h : rowNamesCovered srcL row s) :
    rowNamesCovered srcL row s2 :=
  fun f k hk hne => nameInTarget_mono hle (h f k hk hne)

/-- Growth and coverage facts about one `get_or_create_lookup` call. -/
theorem gocl_spec (prov : Option String) (t : LookupTable) (item : Option String)
    (cache : MergeCache) (tgt : TargetState) :
    stateLe tgt (get_or_create_lookup prov t item cache tgt).2.2.1 ∧
    (get_or_create_lookup prov t item cache tgt).2.2.1.books = tgt.books ∧
    (cacheSound cache tgt →
      cacheSound (get_or_create_lookup prov t item cache tgt).2.1
        (get_or_create_lookup prov t item cache tgt).2.2.1) ∧
    (cacheSound cache tgt → pyStrip (item.getD "") ≠ "" →
      nameInTarget (get_or_create_lookup prov t item cache tgt).2.2.1 t
        (pyStrip (item.getD ""))) ∧
    ((get_or_create_lookup prov t item cache tgt).2.2.2.filter isInsertBook = []) := by
  by_cases he : pyStrip (item.getD "") = ""
  · have heq : get_or_create_lookup prov t item cache tgt = (none, cache, tgt, []) := by
      unfold get_or_create_lookup
      simp [he]
    rw [heq]
    exact ⟨stateLe_refl tgt, rfl, fun h => h, fun _ hne => absurd he hne, rfl⟩
  · rcases hc : (cache t).find? (fun p => p.1 = pyStrip (item.getD "")) with _ | p
    · rcases hf : (tgt.lookups t).find? (fun r => r.name = pyStrip (item.getD "")) with _ | r
      · have heq : get_or_create_lookup prov t item cache tgt =
            (some (newRowkey (tgt.lookups t)),
              cacheAdd cache t (pyStrip (item.getD "")) (newRowkey (tgt.lookups t)),
              { lookups := fun t2 => if t2 = t then
                  tgt.lookups t ++ [⟨newRowkey (tgt.lookups t), pyStrip (item.getD ""), prov⟩]
                else tgt.lookups t2,
                books := tgt.books },
              [DbOp.selectLookup t (pyStrip (item.getD "")),
                DbOp.insertLookup t (pyStrip (item.getD ""))]) := by
          unfold get_or_create_lookup
          simp only [if_neg he, hc, hf]
        rw [heq]
        refine ⟨⟨?_, fun b hb => hb⟩, rfl, ?_, ?_, ?_⟩
        · intro t2 r hr
          show r ∈ (if t2 = t then tgt.lookups t ++ _ else tgt.lookups t2)
          by_cases ht2 : t2 = t
          · subst ht2
            rw [if_pos rfl]
            exact List.mem_append_left _ hr
          · rw [if_neg ht2]
            exact hr
        · intro hs t2 p hp
          show nameInTarget _ t2 p.1
          by_cases ht2 : t2 = t
          · subst ht2
            simp only [cacheAdd, if_pos rfl] at hp
            rcases List.mem_append.mp hp with hp | hp
            · rcases hs t2 p hp with ⟨rr, hrr, hname⟩
              refine ⟨rr, ?_, hname⟩
              show rr ∈ (if t2 = t2 then tgt.lookups t2 ++ _ else tgt.lookups t2)
              rw [if_pos rfl]
              exact List.mem_append_left _ hrr
            · have hp2 : p = (pyStrip (item.getD ""), newRowkey (tgt.lookups t2)) := by
                simpa using hp
              subst hp2
              refine ⟨⟨newRowkey (tgt.lookups t2), pyStrip (item.getD ""), prov⟩, ?_, rfl⟩
              show _ ∈ (if t2 = t2 then tgt.lookups t2 ++ _ else tgt.lookups t2)
              rw [if_pos rfl]
              exact List.mem_append_right _ (by simp)
          · simp only [cacheAdd, if_neg ht2] at hp
            rcases hs t2 p hp with ⟨rr, hrr, hname⟩
            refine ⟨rr, ?_, hname⟩
            show rr ∈ (if t2 = t then tgt.lookups t ++ _ else tgt.lookups t2)
            rw [if_neg ht2]
            exact hrr
        · intro _ _
          refine ⟨⟨newRowkey (tgt.lookups t), pyStrip (item.getD ""), prov⟩, ?_, rfl⟩
          show _ ∈ (if t = t then tgt.lookups t ++ _ else tgt.lookups t)
          rw [if_pos rfl]
          exact List.mem_append_right _ (by simp)
        · rfl
      · have hrmem : r ∈ tgt.lookups t := List.mem_of_find?_eq_some hf
        have hrname : r.name = pyStrip (item.getD "") := by
          have := List.find?_some hf
          simpa using this
        have heq : get_or_create_lookup prov t item cache tgt =
            (some r.rowkey, cacheAdd cache t (pyStrip (item.getD "")) r.rowkey, tgt,
              [DbOp.selectLookup t (pyStrip (item.getD ""))]) := by
          unfold get_or_create_lookup
          simp only [if_neg he, hc, hf]
        rw [heq]
        refine ⟨stateLe_refl tgt, rfl, ?_, fun _ _ => ⟨r, hrmem, hrname⟩, rfl⟩
        intro hs t2 p hp
        by_cases ht2 : t2 = t
        · subst ht2
          simp only [cacheAdd, if_pos rfl] at hp
          rcases List.mem_append.mp hp with hp | hp
          · exact hs t2 p hp
          · have hp2 : p = (pyStrip (item.getD ""), r.rowkey) := by
              simpa using hp
            subst hp2
            exact ⟨r, hrmem, hrname⟩
        · simp only [cacheAdd, if_neg ht2] at hp
          exact hs t2 p hp
    · have hpmem : p ∈ cache t := List.mem_of_find?_eq_some hc
      have hpname : p.1 = pyStrip (item.getD "") := by
        have := List.find?_some hc
        simpa using this
      have heq : get_or_create_lookup prov t item cache tgt =
          (some p.2, cache, tgt, []) := by
        unfold get_or_create_lookup
        simp only [if_neg he, hc]
      rw [heq]
      exact ⟨stateLe_refl tgt, rfl, fun h => h, fun hs _ => hpname ▸ hs t p hpmem, rfl⟩

/-- When the key is empty or its name is already in the target,
`get_or_create_lookup` leaves the target unchanged and issues no
lookup insert (and no book insert). -/
theorem gocl_noop (prov : Option String) (t : LookupTable) (item : Option String)
    (cache : MergeCache) (tgt : TargetState)
    (h : pyStrip (item.getD "") = "" ∨ nameInTarget tgt t (pyStrip (item.getD ""))) :
    (get_or_create_lookup prov t item cache tgt).2.2.1 = tgt ∧
    (get_or_create_lookup prov t item cache tgt).2.2.2.filter isInsertLookup = [] ∧
    (get_or_create_lookup prov t item cache tgt).2.2.2.filter isInsertBook = [] := by
  by_cases he : pyStrip (item.getD "") = ""
  · have heq : get_or_create_lookup prov t item cache tgt = (none, cache, tgt, []) := by
      unfold get_or_create_lookup
      simp [he]
    rw [heq]
    exact ⟨rfl, rfl, rfl⟩
  · rcases hc : (cache t).find? (fun p => p.1 = pyStrip (item.getD "")) with _ | p
    · rcases hf : (tgt.lookups t).find? (fun r => r.name = pyStrip (item.getD "")) with _ | r
      · exfalso
        rcases h with h | ⟨r, hr, hname⟩
        · exact he h
        · have := List.find?_eq_none.mp hf r hr
          simp [hname] at this
      · have heq : get_or_create_lookup prov t item cache tgt =
            (some r.rowkey, cacheAdd cache t (pyStrip (item.getD "")) r.rowkey, tgt,
              [DbOp.selectLookup t (pyStrip (item.getD ""))]) := by
          unfold get_or_create_lookup
          simp only [if_neg he, hc, hf]
        rw [heq]
        exact ⟨rfl, rfl, rfl⟩
    · have heq : get_or_create_lookup prov t item cache tgt =
          (some p.2, cache, tgt, []) := by
        unfold get_or_create_lookup
        simp only [if_neg he, hc]
      rw [heq]
      exact ⟨rfl, rfl, rfl⟩

/-- Growth, bookkeeping and coverage facts about one `remapField`. -/
theorem remapField_spec (srcL : LookupTable → Nat → Option String) (row : BookRow)
    (f : MergeFK) (cache : MergeCache) (tgt : TargetState) :
    stateLe tgt (remapField srcL row f cache tgt).2.2.1 ∧
    (remapField srcL row f cache tgt).2.2.1.books = tgt.books ∧
    (cacheSound cache tgt →
      cacheSound (remapField srcL row f cache tgt).2.1
        (remapField srcL row f cache tgt).2.2.1) ∧
    (remapField srcL row f cache tgt).1.hash = row.hash ∧
    (remapField srcL row f cache tgt).1.provenance = row.provenance ∧
    (∀ g, g ≠ f → (remapField srcL row f cache tgt).1.fk g = row.fk g) ∧
    (∀ k, row.fk f = some k → cacheSound cache tgt → fkName srcL f k ≠ "" →
      nameInTarget (remapField srcL row f cache tgt).2.2.1 (fkTable f) (fkName srcL f k)) ∧
    ((remapField srcL row f cache tgt).2.2.2.filter isInsertBook = []) := by
  rcases hk : row.fk f with _ | k
  · have heq : remapField srcL row f cache tgt = (row, cache, tgt, []) := by
      unfold remapField
      rw [hk]
    rw [heq]
    refine ⟨stateLe_refl tgt, rfl, fun h => h, rfl, rfl, fun g _ => rfl, ?_, rfl⟩
    intro k2 hcon
    simp at hcon
  · have heq : remapField srcL row f cache tgt =
        ({ row with fk := fun g => if g = f then
            (get_or_create_lookup row.provenance (fkTable f)
              (some (pyStrip ((srcL (fkTable f) k).getD ""))) cache tgt).1
          else row.fk g },
         (get_or_create_lookup row.provenance (fkTable f)
            (some (pyStrip ((srcL (fkTable f) k).getD ""))) cache tgt).2.1,
         (get_or_create_lookup row.provenance (fkTable f)
            (some (pyStrip ((srcL (fkTable f) k).getD ""))) cache tgt).2.2.1,
         (get_or_create_lookup row.provenance (fkTable f)
            (some (pyStrip ((srcL (fkTable f) k).getD ""))) cache tgt).2.2.2) := by
      unfold remapField
      rw [hk]
    rw [heq]
    obtain ⟨g1, g2, g3, g4, g5⟩ := gocl_spec row.provenance (fkTable f)
      (some (pyStrip ((srcL (fkTable f) k).getD ""))) cache tgt
    refine ⟨g1, g2, g3, rfl, rfl, fun g hg => ?_, fun k2 hk2 hs hne => ?_, g5⟩
    · show (if g = f then _ else row.fk g) = row.fk g
      rw [if_neg hg]
    · have hkk : k = k2 := Option.some.inj hk2
      subst hkk
      exact g4 hs hne

/-- When every name a field could need is empty or already present,
`remapField` leaves the target unchanged and issues no insert. -/
theorem remapField_noop (srcL : LookupTable → Nat → Option String) (row : BookRow)
    (f : MergeFK) (cache : MergeCache) (tgt : TargetState)
    (h : ∀ k, row.fk f = some k →
      fkName srcL f k = "" ∨ nameInTarget tgt (fkTable f) (fkName srcL f k)) :
    (remapField srcL row f cache tgt).2.2.1 = tgt ∧
    (remapField srcL row f cache tgt).1.hash = row.hash ∧
    (∀ g, g ≠ f → (remapField srcL row f cache tgt).1.fk g = row.fk g) ∧
    (remapField srcL row f cache tgt).2.2.2.filter isInsertLookup = [] ∧
    (remapField srcL row f cache tgt).2.2.2.filter isInsertBook = [] := by
  rcases hk : row.fk f with _ | k
  · have heq : remapField srcL row f cache tgt = (row, cache, tgt, []) := by
      unfold remapField
      rw [hk]
    rw [heq]
    exact ⟨rfl, rfl, fun g _ => rfl, rfl, rfl⟩
  · have heq : remapField srcL row f cache tgt =
        ({ row with fk := fun g => if g = f then
            (get_or_create_lookup row.provenance (fkTable f)
              (some (pyStrip ((srcL (fkTable f) k).getD ""))) cache tgt).1
          else row.fk g },
         (get_or_create_lookup row.provenance (fkTable f)
            (some (pyStrip ((srcL (fkTable f) k).getD ""))) cache tgt).2.1,
         (get_or_create_lookup row.provenance (fkTable f)
            (some (pyStrip ((srcL (fkTable f) k).getD ""))) cache tgt).2.2.1,
         (get_or_create_lookup row.provenance (fkTable f)
            (some (pyStrip ((srcL (fkTable f) k).getD ""))) cache tgt).2.2.2) := by
      unfold remapField
      rw [hk]
    rw [heq]
    obtain ⟨n1, n2, n3⟩ := gocl_noop row.provenance (fkTable f)
      (some (pyStrip ((srcL (fkTable f) k).getD ""))) cache tgt (h k hk)
    refine ⟨n1, rfl, fun g hg => ?_, n2, n3⟩
    show (if g = f then _ else row.fk g) = row.fk g
    rw [if_neg hg]

theorem remapAll_cons (srcL : LookupTable → Nat → Option String) (f : MergeFK)
    (fs : List MergeFK) (r : BookRow) (c : MergeCache) (s : TargetState) (o : List DbOp) :
    remapAll srcL (f :: fs) (r, c, s, o) =
      remapAll srcL fs ((remapField srcL r f c s).1, (remapField srcL r f c s).2.1,
        (remapField srcL r f c s).2.2.1, o ++ (remapField srcL r f c s).2.2.2) := by
  rfl

/-- Pass-1 facts about remapping a duplicate-free field list: the
target only grows, books are untouched, cache soundness and the row's
hash survive, and every needed nonempty name ends up in the target. -/
theorem remapAll_spec (srcL : LookupTable → Nat → Option String) (row0 : BookRow)
    (fs : List MergeFK) : ∀ (r : BookRow) (c : MergeCache) (s : TargetState) (o : List DbOp),
    fs.Nodup → (∀ f ∈ fs, r.fk f = row0.fk f) → r.hash = row0.hash → cacheSound c s →
    stateLe s (remapAll srcL fs (r, c, s, o)).2.2.1 ∧
    (remapAll srcL fs (r, c, s, o)).2.2.1.books = s.books ∧
    cacheSound (remapAll srcL fs (r, c, s, o)).2.1 (remapAll srcL fs (r, c, s, o)).2.2.1 ∧
    (remapAll srcL fs (r, c, s, o)).1.hash = row0.hash ∧
    (∀ f ∈ fs, ∀ k, row0.fk f = some k → fkName srcL f k ≠ "" →
      nameInTarget (remapAll srcL fs (r, c, s, o)).2.2.1 (fkTable f) (fkName srcL f k)) ∧
    ((remapAll srcL fs (r, c, s, o)).2.2.2.filter isInsertBook = o.filter isInsertBook) := by
  induction fs with
  | nil =>
    intro r c s o _ _ hh hs
    exact ⟨stateLe_refl s, rfl, hs, hh, by simp, rfl⟩
  | cons f fs ih =>
    intro r c s o hnd hagree hh hs
    have hnd2 := List.nodup_cons.mp hnd
    obtain ⟨s1le, s1books, s1cache, s1hash, s1prov, s1fk, s1cov, s1book⟩ :=
      remapField_spec srcL r f c s
    have hagree2 : ∀ g ∈ fs, (remapField srcL r f c s).1.fk g = row0.fk g := by
      intro g hg
      have hgne : g ≠ f := fun hgf => hnd2.1 (hgf ▸ hg)
      rw [s1fk g hgne, hagree g (List.mem_cons_of_mem _ hg)]
    have hh2 : (remapField srcL r f c s).1.hash = row0.hash := by rw [s1hash, hh]
    obtain ⟨le2, books2, cache2, hash2, cov2, book2⟩ :=
      ih (remapField srcL r f c s).1 (remapField srcL r f c s).2.1
        (remapField srcL r f c s).2.2.1 (o ++ (remapField srcL r f c s).2.2.2)
        hnd2.2 hagree2 hh2 (s1cache hs)
    rw [remapAll_cons]
    refine ⟨stateLe_trans s1le le2, by rw [books2, s1books], cache2, hash2, ?_, ?_⟩
    · intro g hg k hk hne
      rcases List.mem_cons.mp hg with rfl | hg2
      · have hcov := s1cov k (by rw [hagree g (List.mem_cons_self ..)]; exact hk) hs hne
        exact nameInTarget_mono le2 hcov
      · exact cov2 g hg2 k hk hne
    · rw [book2, List.filter_append, s1book, List.append_nil]

/-- Pass-2 facts: when every needed name is empty or already present,
remapping a duplicate-free field list leaves the target unchanged and
issues no inserts of either kind. -/
theorem remapAll_noop (srcL : LookupTable → Nat → Option String) (row0 : BookRow)
    (fs : List MergeFK) : ∀ (r : BookRow) (c : MergeCache) (s : TargetState) (o : List DbOp),
    fs.Nodup → (∀ f ∈ fs, r.fk f = row0.fk f) → r.hash = row0.hash →
    (∀ f ∈ fs, ∀ k, row0.fk f = some k →
      fkName srcL f k = "" ∨ nameInTarget s (fkTable f) (fkName srcL f k)) →
    (remapAll srcL fs (r, c, s, o)).2.2.1 = s ∧
    (remapAll srcL fs (r, c, s, o)).1.hash = row0.hash ∧
    (remapAll srcL fs (r, c, s, o)).2.2.2.filter isInsertLookup = o.filter isInsertLookup ∧
    (remapAll srcL fs (r, c, s, o)).2.2.2.filter isInsertBook = o.filter isInsertBook := by
  induction fs with
  | nil =>
    intro r c s o _ _ hh _
    exact ⟨rfl, hh, rfl, rfl⟩
  | cons f fs ih =>
    intro r c s o hnd hagree hh hcov
    have hnd2 := List.nodup_cons.mp hnd
    have hstep : ∀ k, r.fk f = some k →
        fkName srcL f k = "" ∨ nameInTarget s (fkTable f) (fkName srcL f k) := by
      intro k hk
      exact hcov f (List.mem_cons_self ..) k (by rw [← hagree f (List.mem_cons_self ..)]; exact hk)
    obtain ⟨n1, n2, n3, n4, n5⟩ := remapField_noop srcL r f c s hstep
    have hagree2 : ∀ g ∈ fs, (remapField srcL r f c s).1.fk g = row0.fk g := by
      intro g hg
      have hgne : g ≠ f := fun hgf => hnd2.1 (hgf ▸ hg)
      rw [n3 g hgne, hagree g (List.mem_cons_of_mem _ hg)]
    have hh2 : (remapField srcL r f c s).1.hash = row0.hash := by rw [n2, hh]
    have hcov2 : ∀ f2 ∈ fs, ∀ k, row0.fk f2 = some k →
        fkName srcL f2 k = "" ∨
          nameInTarget (remapField srcL r f c s).2.2.1 (fkTable f2) (fkName srcL f2 k) := by
      intro f2 hf2 k hk
      rw [n1]
      exact hcov f2 (List.mem_cons_of_mem _ hf2) k hk
    obtain ⟨m1, m2, m3, m4⟩ :=
      ih (remapField srcL r f c s).1 (remapField srcL r f c s).2.1
        (remapField srcL r f c s).2.2.1 (o ++ (remapField srcL r f c s).2.2.2)
        hnd2.2 hagree2 hh2 hcov2
    rw [remapAll_cons]
    refine ⟨by rw [m1, n1], m2, ?_, ?_⟩
    · rw [m3, List.filter_append, n4, List.append_nil]
    · rw [m4, List.filter_append, n5, List.append_nil]

theorem mergeBook_eq (srcL : LookupTable → Nat → Option String) (row0 : BookRow)
    (cache : MergeCache) (tgt : TargetState) :
    mergeBook srcL row0 cache tgt =
      (if ((remapAll srcL fkFieldOrder (row0, cache, tgt, [])).2.2.1).books.any
          (fun b => b.hash = (remapAll srcL fkFieldOrder (row0, cache, tgt, [])).1.hash) then
        ((remapAll srcL fkFieldOrder (row0, cache, tgt, [])).2.1,
         (remapAll srcL fkFieldOrder (row0, cache, tgt, [])).2.2.1,
         (remapAll srcL fkFieldOrder (row0, cache, tgt, [])).2.2.2 ++
           [.selectBookByHash (remapAll srcL fkFieldOrder (row0, cache, tgt, [])).1.hash])
      else
        ((remapAll srcL fkFieldOrder (row0, cache, tgt, [])).2.1,
         { (remapAll srcL fkFieldOrder (row0, cache, tgt, [])).2.2.1 with books :=
            ((remapAll srcL fkFieldOrder (row0, cache, tgt, [])).2.2.1).books ++
              [{ (remapAll srcL fkFieldOrder (row0, cache, tgt, [])).1 with rowkey := none }] },
         (remapAll srcL fkFieldOrder (row0, cache, tgt, [])).2.2.2 ++
           [.selectBookByHash (remapAll srcL fkFieldOrder (row0, cache, tgt, [])).1.hash,
             .insertBook])) := rfl

/-- Every foreign-key field is in the remap order. -/
theorem mem_fkFieldOrder (f : MergeFK) : f ∈ fkFieldOrder := by
  cases f <;> simp [fkFieldOrder]

/-- Pass-1 facts about one `mergeBook`: the target only grows, cache
soundness survives, the row's ContentHash is afterwards in the target,
and every nonempty natural name its foreign keys need is afterwards in
the target. -/
theorem mergeBook_spec (srcL : LookupTable → Nat → Option String) (row0 : BookRow)
    (cache : MergeCache) (tgt : TargetState) (hs : cacheSound cache tgt) :
    stateLe tgt (mergeBook srcL row0 cache tgt).2.1 ∧
    cacheSound (mergeBook srcL row0 cache tgt).1 (mergeBook srcL row0 cache tgt).2.1 ∧
    hashInTarget (mergeBook srcL row0 cache tgt).2.1 row0.hash ∧
    rowNamesCovered srcL row0 (mergeBook srcL row0 cache tgt).2.1 := by
  obtain ⟨le1, books1, cache1, hash1, cov1, _⟩ :=
    remapAll_spec srcL row0 fkFieldOrder row0 cache tgt [] (by decide) (fun _ _ => rfl) rfl hs
  rw [mergeBook_eq]
  by_cases hany : ((remapAll srcL fkFieldOrder (row0, cache, tgt, [])).2.2.1).books.any
      (fun b => b.hash = (remapAll srcL fkFieldOrder (row0, cache, tgt, [])).1.hash)
  · rw [if_pos hany]
    refine ⟨le1, cache1, ?_, fun f k hk hne => cov1 f (mem_fkFieldOrder f) k hk hne⟩
    rcases List.any_eq_true.mp hany with ⟨b, hb, hbh⟩
    refine ⟨b, hb, ?_⟩
    have hbe := of_decide_eq_true hbh
    rw [hbe, hash1]
  · rw [if_neg hany]
    have hgrow : stateLe (remapAll srcL fkFieldOrder (row0, cache, tgt, [])).2.2.1
        { (remapAll srcL fkFieldOrder (row0, cache, tgt, [])).2.2.1 with books :=
          ((remapAll srcL fkFieldOrder (row0, cache, tgt, [])).2.2.1).books ++
            [{ (remapAll srcL fkFieldOrder (row0, cache, tgt, [])).1 with rowkey := none }] } :=
      ⟨fun _ r hr => hr, fun b hb => List.mem_append_left _ hb⟩
    refine ⟨stateLe_trans le1 hgrow, cacheSound_mono hgrow cache1, ?_,
      fun f k hk hne => nameInTarget_mono hgrow (cov1 f (mem_fkFieldOrder f) k hk hne)⟩
    refine ⟨{ (remapAll srcL fkFieldOrder (row0, cache, tgt, [])).1 with rowkey := none },
      List.mem_append_right _ (by simp), hash1⟩

/-- Pass-2 facts about one `mergeBook`: with the hash already present
and every needed name covered, the target is unchanged and no insert of
either kind is issued. -/
theorem mergeBook_noop (srcL : LookupTable → Nat → Option String) (row0 : BookRow)
    (cache : MergeCache) (tgt : TargetState)
    (hhash : hashInTarget tgt row0.hash) (hcov : rowNamesCovered srcL row0 tgt) :
    (mergeBook srcL row0 cache tgt).2.1 = tgt ∧
    (mergeBook srcL row0 cache tgt).2.2.filter isInsertLookup = [] ∧
    (mergeBook srcL row0 cache tgt).2.2.filter isInsertBook = [] := by
  obtain ⟨m1, m2, m3, m4⟩ := remapAll_noop srcL row0 fkFieldOrder row0 cache tgt []
    (by decide) (fun _ _ => rfl) rfl
    (fun f _ k hk => by
      by_cases hne : fkName srcL f k = ""
      · exact Or.inl hne
      · exact Or.inr (hcov f k hk hne))
  rw [mergeBook_eq]
  have hany : ((remapAll srcL fkFieldOrder (row0, cache, tgt, [])).2.2.1).books.any
      (fun b => b.hash = (remapAll srcL fkFieldOrder (row0, cache, tgt, [])).1.hash) = true := by
    rw [m1, m2]
    rcases hhash with ⟨b, hb, hbh⟩
    exact List.any_eq_true.mpr ⟨b, hb, decide_eq_true (by rw [hbh])⟩
  rw [if_pos hany]
  refine ⟨m1, ?_, ?_⟩
  · rw [List.filter_append, m3]
    simp [isInsertLookup]
  · rw [List.filter_append, m4]
    simp [isInsertBook]

theorem mergeAll_cons (srcL : LookupTable → Nat → Option String) (row : BookRow)
    (rows : List BookRow) (c : MergeCache) (s : TargetState) (o : List DbOp) :
    mergeAll srcL (row :: rows) (c, s, o) =
      mergeAll srcL rows ((mergeBook srcL row c s).1, (mergeBook srcL row c s).2.1,
        o ++ (mergeBook srcL row c s).2.2) := rfl

/-- Pass-1 facts about a whole source: the target only grows, and every
processed row's hash and needed names are in the final target. -/
theorem mergeAll_spec (srcL : LookupTable → Nat → Option String) (rows : List BookRow) :
    ∀ (c : MergeCache) (s : TargetState) (o : List DbOp), cacheSound c s →
    stateLe s (mergeAll srcL rows (c, s, o)).2.1 ∧
    cacheSound (mergeAll srcL rows (c, s, o)).1 (mergeAll srcL rows (c, s, o)).2.1 ∧
    ∀ row ∈ rows, hashInTarget (mergeAll srcL rows (c, s, o)).2.1 row.hash ∧
      rowNamesCovered srcL row (mergeAll srcL rows (c, s, o)).2.1 := by
  induction rows with
  | nil =>
    intro c s o hs
    exact ⟨stateLe_refl s, hs, by simp⟩
  | cons row rows ih =>
    intro c s o hs
    obtain ⟨b1, b2, b3, b4⟩ := mergeBook_spec srcL row c s hs
    obtain ⟨i1, i2, i3⟩ := ih (mergeBook srcL row c s).1 (mergeBook srcL row c s).2.1
      (o ++ (mergeBook srcL row c s).2.2) b2
    rw [mergeAll_cons]
    refine ⟨stateLe_trans b1 i1, i2, ?_⟩
    intro r hr
    rcases List.mem_cons.mp hr with rfl | hr2
    · exact ⟨hashInTarget_mono i1 b3, rowNamesCovered_mono i1 b4⟩
    · exact i3 r hr2

/-- Pass-2 facts about a whole source: with every row's hash and names
already present, the fold leaves the target unchanged and issues no
inserts. -/
theorem mergeAll_noop (srcL : LookupTable → Nat → Option String) (tgt1 : TargetState)
    (rows : List BookRow) : ∀ (c : MergeCache) (o : List DbOp),
    (∀ row ∈ rows, hashInTarget tgt1 row.hash ∧ rowNamesCovered srcL row tgt1) →
    (mergeAll srcL rows (c, tgt1, o)).2.1 = tgt1 ∧
    (mergeAll srcL rows (c, tgt1, o)).2.2.filter isInsertLookup = o.filter isInsertLookup ∧
    (mergeAll srcL rows (c, tgt1, o)).2.2.filter isInsertBook = o.filter isInsertBook := by
  induction rows with
  | nil =>
    intro c o _
    exact ⟨rfl, rfl, rfl⟩
  | cons row rows ih =>
    intro c o hrows
    obtain ⟨n1, n2, n3⟩ := mergeBook_noop srcL row c tgt1
      (hrows row (List.mem_cons_self ..)).1 (hrows row (List.mem_cons_self ..)).2
    rw [mergeAll_cons, n1]
    obtain ⟨j1, j2, j3⟩ := ih (mergeBook srcL row c tgt1).1
      (o ++ (mergeBook srcL row c tgt1).2.2)
      (fun r hr => hrows r (List.mem_cons_of_mem _ hr))
    refine ⟨j1, ?_, ?_⟩
    · rw [j2, List.filter_append, n2, List.append_nil]
    · rw [j3, List.filter_append, n3, List.append_nil]

theorem mergeSource_eq (db : SourceDB) (s : TargetState) :
    mergeSource db s =
      ((mergeAll (srcLookupGet db) db.books ((fun _ => [] : MergeCache), s, [])).2.1,
       (mergeAll (srcLookupGet db) db.books ((fun _ => [] : MergeCache), s, [])).2.2) := rfl

/-- C3: merging the same source database into a target a second time is
idempotent — for every source database and every target state produced
by a first merge of that source, the second merge issues zero BOOKS
inserts (every row's ContentHash is already present) and zero
lookup-table inserts (every natural key is already present), and leaves
the target state unchanged. -/
theorem merge_idempotent (db : SourceDB) (tgt : TargetState) :
    (mergeSource db (mergeSource db tgt).1).1 = (mergeSource db tgt).1 ∧
    ((mergeSource db (mergeSource db tgt).1).2.filter isInsertBook).length = 0 ∧
    ((mergeSource db (mergeSource db tgt).1).2.filter isInsertLookup).length = 0 := by
  obtain ⟨a1, a2, a3⟩ := mergeAll_spec (srcLookupGet db) db.books (fun _ => []) tgt []
    (fun t p hp => absurd hp (List.not_mem_nil p))
  obtain ⟨n1, n2, n3⟩ := mergeAll_noop (srcLookupGet db)
    (mergeAll (srcLookupGet db) db.books ((fun _ => [] : MergeCache), tgt, [])).2.1
    db.books (fun _ => []) [] a3
  rw [mergeSource_eq db tgt, mergeSource_eq db
    (mergeAll (srcLookupGet db) db.books ((fun _ => [] : MergeCache), tgt, [])).2.1]
  exact ⟨n1, by rw [n3]; rfl, by rw [n2]; rfl⟩

theorem gocl_empty_string (prov2 : Option String) (t2 : LookupTable)
    (cache : MergeCache) (tgt : TargetState) :
    get_or_create_lookup prov2 t2 (some "") cache tgt = (none, cache, tgt, []) := rfl

/-- C10: for every lookup table and every natural-key argument that
strips to the empty string, `get_or_create_lookup` returns None with
the cache and target unchanged and an empty operation log (no SELECT,
no INSERT); consequently, when a foreign key's source name strips to
empty, the remapped field of the book row becomes null while cache,
target and operation log stay untouched. -/
theorem empty_natural_key_yields_null (prov : Option String) (t : LookupTable)
    (item : Option String) (cache : MergeCache) (tgt : TargetState)
    (srcL : LookupTable → Nat → Option String) (row : BookRow) (f : MergeFK) (k : Nat)
    (hitem : pyStrip (item.getD "") = "")
    (hk : row.fk f = some k)
    (hname : pyStrip ((srcL (fkTable f) k).getD "") = "") :
    get_or_create_lookup prov t item cache tgt = (none, cache, tgt, []) ∧
    (remapField srcL row f cache tgt).1.fk f = none ∧
    (remapField srcL row f cache tgt).2.1 = cache ∧
    (remapField srcL row f cache tgt).2.2.1 = tgt ∧
    (remapField srcL row f cache tgt).2.2.2 = [] := by
  have h1 : get_or_create_lookup prov t item cache tgt = (none, cache, tgt, []) := by
    unfold get_or_create_lookup
    simp [hitem]
  have heq : remapField srcL row f cache tgt =
      ({ row with fk := fun g => if g = f then none else row.fk g }, cache, tgt, []) := by
    unfold remapField
    rw [hk]
    simp only [hname]
    rw [gocl_empty_string]
  refine ⟨h1, ?_, ?_, ?_, ?_⟩
  · rw [heq]
    simp
  · rw [heq]
  · rw [heq]
  · rw [heq]

/-- Witness for C10 at concrete inputs: a whitespace-only natural key
and a source whose lookup name for key 5 is whitespace. -/
theorem empty_natural_key_yields_null_witness :
    get_or_create_lookup none .contributor (some "   ") (fun _ => [])
      ⟨fun _ => [], []⟩ = (none, fun _ => [], ⟨fun _ => [], []⟩, []) ∧
    (remapField (fun _ _ => some "  ") ⟨none, fun _ => some 5, "h", none⟩ .author
      (fun _ => []) ⟨fun _ => [], []⟩).1.fk .author = none ∧
    (remapField (fun _ _ => some "  ") ⟨none, fun _ => some 5, "h", none⟩ .author
      (fun _ => []) ⟨fun _ => [], []⟩).2.1 = (fun _ => []) ∧
    (remapField (fun _ _ => some "  ") ⟨none, fun _ => some 5, "h", none⟩ .author
      (fun _ => []) ⟨fun _ => [], []⟩).2.2.1 = ⟨fun _ => [], []⟩ ∧
    (remapField (fun _ _ => some "  ") ⟨none, fun _ => some 5, "h", none⟩ .author
      (fun _ => []) ⟨fun _ => [], []⟩).2.2.2 = [] :=
  empty_natural_key_yields_null none .contributor (some "   ") (fun _ => [])
    ⟨fun _ => [], []⟩ (fun _ _ => some "  ") ⟨none, fun _ => some 5, "h", none⟩
    .author 5 (by decide) rfl (by decide)

theorem processLine_count (st : RunState) (ev : LineEvents) :
    (processLine st ev).insert_count + (processLine st ev).error_count
      = st.insert_count + st.error_count + 1 := by
  unfold processLine
  by_cases ht : ev.transformExc = true
  · simp [ht]
    omega
  · rw [Bool.not_eq_true] at ht
    rcases hh : (if ev.hashExc then st.lastHash else some ev.freshHash) with _ | h
    · simp [ht, hh]
      omega
    · by_cases hs : (ev.shapeMismatch || ev.insertExc) = true
      · simp [ht, hh, hs]
        omega
      · rw [Bool.not_eq_true] at hs
        simp [ht, hh, hs]
        omega

theorem processAll_count (evs : List LineEvents) : ∀ st : RunState,
    (processAll st evs).insert_count + (processAll st evs).error_count
      = st.insert_count + st.error_count + evs.length := by
  induction evs with
  | nil => intro st; rfl
  | cons e t ih =>
    intro st
    have h1 := processLine_count st e
    have h2 := ih (processLine st e)
    have hc : processAll st (e :: t) = processAll (processLine st e) t := rfl
    rw [hc, h2, List.length_cons]
    omega

/-- C7 counterexample: a line whose only failure is in cover-image
processing is nevertheless inserted with the error count left at zero,
and a line whose hash computation fails after an earlier successful
line is inserted with the EARLIER line's digest, again uncounted —
refuting that any exception during image processing or hash
computation leads to the row being reported and skipped and the error
counted. -/
theorem image_exception_row_still_inserted :
    processLine ⟨0, 0, none, []⟩ ⟨false, false, true, false, false, "d1"⟩ =
      ⟨1, 0, some "d1", ["d1"]⟩ ∧
    processAll ⟨0, 0, none, []⟩
      [⟨false, false, false, false, false, "dA"⟩,
       ⟨false, true, false, false, false, "dB"⟩] =
      ⟨2, 0, some "dA", ["dA", "dA"]⟩ :=
  ⟨rfl, rfl⟩

/-- C7 (amended): the outer per-line try/except keeps the run alive —
every processed line ends exactly once as either an insert or a counted
error, so after any prefix the two counters sum to the number of lines;
a transform failure, a hash failure on a line with no earlier
successful hash, a shape mismatch or an insert failure is counted and
the row skipped; but a failure confined to image processing leaves the
row inserted and uncounted, and a hash failure on a later line silently
inserts the row under the previous line's digest, also uncounted. -/
theorem per_row_error_containment (st : RunState) (ev : LineEvents)
    (evs : List LineEvents) :
    ((processAll st evs).insert_count + (processAll st evs).error_count
      = st.insert_count + st.error_count + evs.length) ∧
    ((ev.transformExc = true ∨ (ev.hashExc = true ∧ st.lastHash = none) ∨
        ev.shapeMismatch = true ∨ ev.insertExc = true) →
      (processLine st ev).error_count = st.error_count + 1 ∧
      (processLine st ev).insert_count = st.insert_count ∧
      (processLine st ev).rows = st.rows) ∧
    (ev.transformExc = false → ev.hashExc = false → ev.shapeMismatch = false →
      ev.insertExc = false →
      (processLine st ev).insert_count = st.insert_count + 1 ∧
      (processLine st ev).error_count = st.error_count ∧
      (processLine st ev).rows = st.rows ++ [ev.freshHash]) ∧
    (∀ h, ev.transformExc = false → ev.hashExc = true → st.lastHash = some h →
      ev.shapeMismatch = false → ev.insertExc = false →
      (processLine st ev).insert_count = st.insert_count + 1 ∧
      (processLine st ev).error_count = st.error_count ∧
      (processLine st ev).rows = st.rows ++ [h]) := by
  refine ⟨processAll_count evs st, ?_, ?_, ?_⟩
  · intro hdisj
    by_cases ht : ev.transformExc = true
    · have heq : processLine st ev = { st with error_count := st.error_count + 1 } := by
        unfold processLine
        simp [ht]
      rw [heq]
      exact ⟨rfl, rfl, rfl⟩
    · rw [Bool.not_eq_true] at ht
      by_cases hh : ev.hashExc = true ∧ st.lastHash = none
      · have heq : processLine st ev = { st with error_count := st.error_count + 1 } := by
          unfold processLine
          simp [ht, hh.1, hh.2]
        rw [heq]
        exact ⟨rfl, rfl, rfl⟩
      · have hsi : ev.shapeMismatch = true ∨ ev.insertExc = true := by
          rcases hdisj with h | h | h | h
          · rw [ht] at h
            exact absurd h (by simp)
          · exact absurd h hh
          · exact Or.inl h
          · exact Or.inr h
        rcases hcase : (if ev.hashExc then st.lastHash else some ev.freshHash) with _ | hv
        · exfalso
          by_cases hb : ev.hashExc = true
          · rw [hb] at hcase
            simp at hcase
            exact hh ⟨hb, hcase⟩
          · rw [Bool.not_eq_true] at hb
            rw [hb] at hcase
            simp at hcase
        · have heq : processLine st ev =
              { st with lastHash := some hv, error_count := st.error_count + 1 } := by
            rcases hsi with h | h
            · unfold processLine
              simp [ht, hcase, h]
            · unfold processLine
              simp [ht, hcase, h]
          rw [heq]
          exact ⟨rfl, rfl, rfl⟩
  · intro h1 h2 h3 h4
    have heq : processLine st ev =
        { st with lastHash := some ev.freshHash, insert_count := st.insert_count + 1,
                  rows := st.rows ++ [ev.freshHash] } := by
      unfold processLine
      simp [h1, h2, h3, h4]
    rw [heq]
    exact ⟨rfl, rfl, rfl⟩
  · intro h h1 h2 hlast h3 h4
    have heq : processLine st ev =
        { st with lastHash := some h, insert_count := st.insert_count + 1,
                  rows := st.rows ++ [h] } := by
      unfold processLine
      simp [h1, h2, hlast, h3, h4]
    rw [heq]
    exact ⟨rfl, rfl, rfl⟩

/-- C9: the input handed to the row engine is exactly the other-entity
insert lines, in file order, followed by the main-entity insert lines,
in file order — so every other-entity insert is processed before any
main-entity insert however the two kinds are interleaved in the dump. -/
theorem classifier_bucket_order (lines : List String) :
    sortedInsertLines lines =
      lines.filter (fun l => isInsertLine l && !isMainInsertLine l) ++
        lines.filter (fun l => isMainInsertLine l) := by
  rcases splitBackupLines_foldl lines ⟨[], [], []⟩ with ⟨ho, hr⟩
  rw [sortedInsertLines, splitBackupLines, ho, hr]
  simp

end RwScripts
